import Mathlib

/-!
Verification of the container convergence engine of this repository.

The repository ships two near-identical variants of the engine:
`src/lxdock/container.py` (the `lxdock` variant) and `src/nomad/container.py`
(the `nomad` variant).  This file is a shallow embedding of the parts of those
files that the audited properties talk about: the remote container object
(status code, config key/value store, device map), the lifecycle actions
(`up`, `halt`, `destroy`, `provision`, `shell` guards), the share and hostname
reconcilers, IP acquisition, and the identity resolver `lxd_name`.

Python dicts are embedded as association lists with dict-faithful operations
(assignment replaces in place or appends, deletion removes the key, lookup
takes the first binding).  Daemon calls, guest commands and host-side ACL
commands are recorded as an explicit effect trace.  External collaborators
whose code is not part of the sources (`EtcHosts`, `folderid`,
`find_free_ip`, `set_static_ip_on_debian`, `constants`) are modelled at their
interface, as documented on each definition.
-/

namespace LXD

/-! ### Python dict embedding: association lists over string keys -/

/-- python `str.startswith`: prefix test on the character sequences. -/
def pyStartswith (s p : String) : Bool := p.data.isPrefixOf s.data

/-- python `str.endswith`: suffix test on the character sequences. -/
def pyEndswith (s p : String) : Bool := p.data.isSuffixOf s.data

/-- `d.get(k)`: first binding of `k`, if any. -/
def aGet (m : List (String × α)) (k : String) : Option α :=
  (m.find? (fun p => p.1 = k)).map Prod.snd

/-- `d[k] = v`: replace the binding in place when the key is present,
append it otherwise (python dicts keep insertion order). -/
def aSet (m : List (String × α)) (k : String) (v : α) : List (String × α) :=
  if (m.find? (fun p => p.1 = k)).isSome then
    m.map (fun p => if p.1 = k then (k, v) else p)
  else
    m ++ [(k, v)]

/-- `del d[k]`: remove the binding of `k`. -/
def aDel (m : List (String × α)) (k : String) : List (String × α) :=
  m.filter (fun p => ¬ p.1 = k)

/-! ### Decimal rendering of a natural number

The python sources build device keys with `'lxdockshare%s' % i` resp.
`'nomadshare%s' % i`; `%s` renders `i` as its decimal numeral.  `decStr`
is that decimal numeral, written with explicit fuel so that it is
structurally recursive and kernel-evaluable. -/

/-- Big-endian decimal digit characters of `n` (empty for `n = 0`),
with fuel. -/
def decStrAux : Nat → Nat → List Char
  | 0, _ => []
  | _ + 1, 0 => []
  | fuel + 1, n + 1 => decStrAux fuel ((n + 1) / 10) ++ [Nat.digitChar ((n + 1) % 10)]

/-- The decimal numeral of `n`, as produced by python's `'%s' % n`. -/
def decStr (n : Nat) : String :=
  if n = 0 then "0" else ⟨decStrAux n n⟩

/-! ### Identity resolver (`Container.lxd_name`, identical in both variants)

`folderid` lives in `utils/identifier.py`, which is not part of the sources;
per its call-site comment it is "a project ID based on inode numbers".  It is
therefore kept abstract: `lxd_name` takes the already-computed identifier
string as an argument, exactly as the method body uses it. -/

/-- Python `s[:n]` for an `Int` bound: the first `n` characters; a negative
bound drops from the end. -/
def pyTake (s : String) (n : Int) : String :=
  if 0 ≤ n then ⟨s.data.take n.toNat⟩ else ⟨s.data.take (s.length - (-n).toNat)⟩

/-- `Container.lxd_name` (src/lxdock/container.py:241-257 and
src/nomad/container.py:182-198): `'{project}-{name}'` truncated to
`63 - len(project_id)` characters, then `'-{project_id}'` appended. -/
def lxd_name (project_name cname project_id : String) : String :=
  let lxd_name_pre := project_name ++ "-" ++ cname
  (pyTake lxd_name_pre ((63 : Int) - project_id.length)) ++ "-" ++ project_id

/-! ### Data model -/

/-- LXD lifecycle status codes.  `constants.py` is not part of the sources;
these are the LXD API codes its names stand for (Running = 103,
Stopped = 102). -/
def CONTAINER_RUNNING : Nat := 103

def CONTAINER_STOPPED : Nat := 102

/-- A `{'type': 'disk', 'source': ..., 'path': ...}` device entry. -/
structure Device where
  dtype : String
  source : String
  path : String
deriving DecidableEq, Repr

/-- The remote container object as observed through pylxd: lifecycle status
code, config key/value store, and device map. -/
structure Remote where
  status_code : Nat
  config : List (String × String)
  devices : List (String × Device)
deriving DecidableEq, Repr

/-- The daemon's view of this project's container: whether the remote object
exists, and the object itself when it does. -/
structure Client where
  containerExists : Bool
  remote : Remote
deriving DecidableEq, Repr

/-- A desired share entry: `{source, dest, set_host_acl}` (the lxdock variant
reads `set_host_acl` with default `True`; the nomad variant has no such
option and always applies ACLs, so its field is ignored there). -/
structure ShareOpt where
  source : String
  dest : String
  set_host_acl : Bool
deriving DecidableEq, Repr

/-- A desired guest-user entry: `{name, home?, password?}`. -/
structure UserOpt where
  name : String
  home : Option String
  password : Option String
deriving DecidableEq, Repr

/-- The declarative options of one container (`self.options`).  Absent keys
whose python default is falsy are represented by the empty list;
`sharesPresent` models `'shares' in self.options`. -/
structure Options where
  name : String
  privileged : Bool
  lxc_config : List (String × String)
  environment : List (String × String)
  hostnames : List String
  sharesPresent : Bool
  shares : List ShareOpt
  users : List UserOpt
  provisioning : List String
deriving DecidableEq, Repr

/-- `constants.ProvisioningMode` of the lxdock variant. -/
inductive PMode where
  | AUTO
  | ENABLED
  | DISABLED
deriving DecidableEq, Repr

/-- One observable side effect: a daemon call, guest command, host ACL
command, host-resolution-file write, or sleep. -/
inductive Effect where
  | create
  | start
  | stopGraceful (timeout : Nat)
  | stopForced
  | stopWait
  | delete
  | save
  | sleep
  | giveCurrentUserAccess (source : String)
  | giveMappedUserAccess (source : String) (userpath : Option String)
  | setfaclCurrentUser (source : String)
  | setfaclMappedRoot (source : String)
  | createUser (name : String) (home : Option String) (password : Option String)
  | etcSave
  | addSshPubkeyToRoot (key : String)
  | provisionerSetup (ptype : String)
  | provisionerProvision (ptype : String)
  | prepareDebian
  | ansibleProvision (ptype : String)
  | findFreeIp
  | setStaticIp
  | shellExec
deriving DecidableEq, Repr

/-- The behaviour of the external world during one action: the provisioner
registry, the host's SSH key, whether `start` brings the container to
Running, whether the graceful `stop` raises `LXDAPIException`, and the
answer of the k-th network-state query issued during the action. -/
structure Env where
  registry : List String
  sshPubkey : Option String
  startWorks : Bool
  gracefulStopFails : Bool
  ipOracle : Nat → Option String

/-! ### Host resolution file

Modelled from the spec: class `EtcHosts` lives in `network.py`, which is not
part of the sources.  Per §3 and §4.4 of the spec the file holds at most one
managed binding per hostname; `ensure_binding_present` rewrites the binding
to the given ip (flagging a change only when it was absent or pointed
elsewhere), `ensure_binding_absent` drops it (flagging a change only when it
was present), and `save` persists the file when invoked. -/
structure EtcHosts where
  bindings : List (String × String)
  changed : Bool
deriving DecidableEq, Repr

/-- Modelled from the spec: `EtcHosts.ensure_binding_present`. -/
def EtcHosts.ensure_binding_present (e : EtcHosts) (hostname ip : String) : EtcHosts :=
  if aGet e.bindings hostname = some ip then e
  else { bindings := aDel e.bindings hostname ++ [(hostname, ip)], changed := true }

/-- Modelled from the spec: `EtcHosts.ensure_binding_absent`. -/
def EtcHosts.ensure_binding_absent (e : EtcHosts) (hostname : String) : EtcHosts :=
  if (aGet e.bindings hostname).isSome then
    { bindings := aDel e.bindings hostname, changed := true }
  else e

/-- The `for hostname in hostnames: etchosts.ensure_binding_present(...)`
loop of `_setup_hostnames`. -/
def foldPresent (ip : String) (hs : List String) (e : EtcHosts) : EtcHosts :=
  hs.foldl (fun acc h => acc.ensure_binding_present h ip) e

/-- The `for hostname in hostnames: etchosts.ensure_binding_absent(...)`
loop of `_unsetup_hostnames`. -/
def foldAbsent (hs : List String) (e : EtcHosts) : EtcHosts :=
  hs.foldl (fun acc h => acc.ensure_binding_absent h) e

/-- `Container._setup_hostnames` (lxdock 366-379, nomad 283-296): ensure a
binding to `ip` for every declared hostname, then save the file exactly when
some binding changed.  Returns the on-disk file after the pass and the
trace. -/
def setup_hostnames (hostnames : List String) (ip : String)
    (file : List (String × String)) : List (String × String) × List Effect :=
  if hostnames = [] then (file, [])
  else
    let e := foldPresent ip hostnames ⟨file, false⟩
    if e.changed then (e.bindings, [.etcSave]) else (file, [])

/-- `Container._unsetup_hostnames` (lxdock 444-455, nomad 361-372). -/
def unsetup_hostnames (hostnames : List String)
    (file : List (String × String)) : List (String × String) × List Effect :=
  if hostnames = [] then (file, [])
  else
    let e := foldAbsent hostnames ⟨file, false⟩
    if e.changed then (e.bindings, [.etcSave]) else (file, [])

/-! ### Getting / creating the remote object -/

/-- The config written by `Container._get_container` of the lxdock variant
(282-345): user `lxc_config` overwritten with the lxdock defaults. -/
def freshRemoteLxdock (homedir : String) (opts : Options) : Remote :=
  { status_code := CONTAINER_STOPPED
  , config :=
      aSet (aSet (aSet opts.lxc_config
        "security.privileged" (if opts.privileged then "true" else "false"))
        "user.lxdock.made" "1")
        "user.lxdock.homedir" homedir
  , devices := [] }

/-- The config written by `Container._get_container` of the nomad variant
(230-281). -/
def freshRemoteNomad (homedir : String) (opts : Options) : Remote :=
  { status_code := CONTAINER_STOPPED
  , config :=
      [("security.privileged", if opts.privileged then "true" else "false"),
       ("user.nomad.made", "1"),
       ("user.nomad.homedir", homedir)]
  , devices := [] }

/-- The `_container` property (lxdock 466-471, nomad 383-388):
`_get_container` with `create=True`.  When the remote object is absent this
issues a `create` call and yields a fresh Stopped container (the daemon is
modelled as accepting the call; its failure path raises only after the call
was issued). -/
def materialize (fresh : Remote) (cl : Client) : Remote × List Effect :=
  if cl.containerExists then (cl.remote, []) else (fresh, [.create])

/-! ### Environment overrides and guest users -/

/-- `Container._setup_env` (src/lxdock/container.py:358-364): write every
`environment.<key>` override into the config, then save — but only when the
`environment` option is truthy. -/
def setup_env (opts : Options) (c : Remote) : Remote × List Effect :=
  if opts.environment = [] then (c, [])
  else
    ({ c with config := (opts.environment.foldl
        (fun cfg kv => aSet cfg ("environment." ++ kv.1) kv.2) c.config) },
     [.save])

/-- `Container._setup_users` (src/lxdock/container.py:431-442): one guest
`create_user` call per declared user. -/
def setup_users (opts : Options) : List Effect :=
  opts.users.map (fun u => .createUser u.name u.home u.password)

/-- `Container.is_privileged` (lxdock 221-224, nomad 162-165). -/
def is_privileged (c : Remote) : Bool :=
  decide (aGet c.config "security.privileged" = some "true")

/-! ### Share reconciliation -/

/-- `os.path.join` for the two-argument uses in the sources. -/
def osPathJoin (a b : String) : String :=
  if pyStartswith b "/" then b
  else if pyEndswith a "/" then a ++ b
  else a ++ "/" ++ b

/-- The `{'type': 'disk', 'source': ..., 'path': ...}` entry built for a
desired share. -/
def mkShareDev (homedir : String) (s : ShareOpt) : Device :=
  { dtype := "disk", source := osPathJoin homedir s.source, path := s.dest }

/-- The ACL effects of one share in the lxdock variant
(src/lxdock/container.py:413-425): only when `set_host_acl` and the source
was not already installed; for unprivileged containers also the mapped root
user and every declared user's home path. -/
def lxdockShareGrants (homedir : String) (opts : Options) (privileged : Bool)
    (existing_sources : List String) (share : ShareOpt) : List Effect :=
  let source := osPathJoin homedir share.source
  if share.set_host_acl ∧ source ∉ existing_sources then
    [.giveCurrentUserAccess source] ++
    (if ¬ privileged then
      [.giveMappedUserAccess source none] ++
      opts.users.map (fun u =>
        .giveMappedUserAccess source (some (u.home.getD ("/home/" ++ u.name))))
    else [])
  else []

/-- The ACL effects of one share in the nomad variant
(src/nomad/container.py:324-334): `setfacl` for the current user and, for
unprivileged containers, for the host uid mapped to guest root (the uid
itself comes from an `os.stat` outside the engine and is abstracted away). -/
def nomadShareGrants (homedir : String) (privileged : Bool)
    (existing_sources : List String) (share : ShareOpt) : List Effect :=
  let source := osPathJoin homedir share.source
  if source ∉ existing_sources then
    [.setfaclCurrentUser source] ++
    (if ¬ privileged then [.setfaclMappedRoot source] else [])
  else []

/-- The `for i, share in enumerate(shares, start=1)` loop shared by the two
`_setup_shares` bodies: per share, emit its ACL effects and assign the
numbered device entry. -/
def sharesLoop (homedir : String) (key : Nat → String)
    (grants : ShareOpt → List Effect) :
    Nat → List ShareOpt → List (String × Device) →
    List (String × Device) × List Effect
  | _, [], devs => (devs, [])
  | i, s :: rest, devs =>
      let devs1 := aSet devs (key i) (mkShareDev homedir s)
      let r := sharesLoop homedir key grants (i + 1) rest devs1
      (r.1, grants s ++ r.2)

/-- The device key of the i-th share in the lxdock variant. -/
def lxdockShareKey (i : Nat) : String := "lxdockshare" ++ decStr i

/-- The device key of the i-th share in the nomad variant. -/
def nomadShareKey (i : Nat) : String := "nomadshare" ++ decStr i

/-- `Container._setup_shares` (src/lxdock/container.py:392-429): snapshot the
installed namespaced entries and their sources, delete them all, then re-add
every desired share under `lxdockshare1..N`, granting host ACLs only for
sources not in the snapshot; finally save. -/
def lxdock_setup_shares (homedir : String) (opts : Options) (c : Remote) :
    Remote × List Effect :=
  if ¬ opts.sharesPresent then (c, [])
  else
    let existing_shares := c.devices.filter (fun p => pyStartswith p.1 "lxdockshare")
    let existing_sources := existing_shares.map (fun p => p.2.source)
    let devs0 := c.devices.filter (fun p => ¬ pyStartswith p.1 "lxdockshare")
    let r := sharesLoop homedir lxdockShareKey
      (lxdockShareGrants homedir opts (is_privileged c) existing_sources)
      1 opts.shares devs0
    ({ c with devices := r.1 }, r.2 ++ [.save])

/-- `Container._setup_shares` (src/nomad/container.py:298-342); the nomad
variant has no `'shares' in options` early return (its `up` performs that
check before calling). -/
def nomad_setup_shares (homedir : String) (opts : Options) (c : Remote) :
    Remote × List Effect :=
  let existing_shares := c.devices.filter (fun p => pyStartswith p.1 "nomadshare")
  let existing_sources := existing_shares.map (fun p => p.2.source)
  let devs0 := c.devices.filter (fun p => ¬ pyStartswith p.1 "nomadshare")
  let r := sharesLoop homedir nomadShareKey
    (nomadShareGrants homedir (is_privileged c) existing_sources)
    1 opts.shares devs0
  ({ c with devices := r.1 }, r.2 ++ [.save])

/-! ### IP acquisition -/

/-- `Container._wait_for_ip` (lxdock 457-464) / `_wait_for_ipv4_ip`
(nomad 374-381): up to `sec` rounds of sleep-then-query, returning at the
first query that reports an address.  `q` indexes the queries issued so far
in the enclosing action. -/
def wait_for_ip (oracle : Nat → Option String) :
    Nat → Nat → Option String × List Effect
  | _, 0 => (none, [])
  | q, sec + 1 =>
      match oracle q with
      | some ip => (some ip, [.sleep])
      | none =>
          let r := wait_for_ip oracle (q + 1) sec
          (r.1, .sleep :: r.2)

/-- `Container._setup_ip` (src/lxdock/container.py:381-390): one immediate
query, then the bounded 10-second poll. -/
def lxdock_setup_ip (oracle : Nat → Option String) : Option String × List Effect :=
  match oracle 0 with
  | some ip => (some ip, [])
  | none => wait_for_ip oracle 1 10

/-- `Container._assign_free_static_ip` (src/nomad/container.py:223-228).
`find_free_ip` and `set_static_ip_on_debian` live in modules outside the
sources and are recorded as effects; the `static_ip` flag is persisted. -/
def nomad_assign_free_static_ip (c : Remote) : Remote × List Effect :=
  ({ c with config := aSet c.config "user.nomad.static_ip" "true" },
   [.findFreeIp, .setStaticIp, .save])

/-- `Container._setup_ip` (src/nomad/container.py:344-359): immediate query,
bounded poll, then — still unresolved — one stop / static-IP assignment /
restart cycle followed by one more bounded poll. -/
def nomad_setup_ip (oracle : Nat → Option String) (c : Remote) :
    Option String × Remote × List Effect :=
  match oracle 0 with
  | some ip => (some ip, c, [])
  | none =>
      let w1 := wait_for_ip oracle 1 10
      match w1.1 with
      | some ip => (some ip, c, w1.2)
      | none =>
          let a := nomad_assign_free_static_ip { c with status_code := CONTAINER_STOPPED }
          let c2 := { a.1 with status_code := CONTAINER_RUNNING }
          let w2 := wait_for_ip oracle 11 10
          (w2.1, c2, w1.2 ++ [.stopWait] ++ a.2 ++ [.start] ++ w2.2)

/-! ### Provisioning -/

/-- `Container.provision` (src/lxdock/container.py:87-124) together with its
`must_be_created_and_running` guard (24-35): the guard reads `self.exists`
(a plain daemon get) and then `is_running`, so it never creates.  The body
re-applies the env overrides, performs the barebones setup when the
`provisioned` flag is unset (injecting the host SSH key when one is found),
runs each registered provisioner's hooks, and persists the flag. -/
def lxdock_provision (env : Env) (opts : Options) (cl : Client) :
    Client × List Effect :=
  if ¬ cl.containerExists then (cl, [])
  else if ¬ cl.remote.status_code = CONTAINER_RUNNING then (cl, [])
  else
    let se := setup_env opts cl.remote
    let barebone := ¬ aGet se.1.config "user.lxdock.provisioned" = some "true"
    let provisioners := opts.provisioning.filter (fun t => t ∈ env.registry)
    let e2 := if barebone then
        (match env.sshPubkey with
         | some k => [Effect.addSshPubkeyToRoot k]
         | none => [])
      else []
    let e3 := if barebone then provisioners.map Effect.provisionerSetup else []
    let e4 := provisioners.map Effect.provisionerProvision
    let c2 := { se.1 with config := aSet se.1.config "user.lxdock.provisioned" "true" }
    ({ cl with remote := c2 }, se.2 ++ e2 ++ e3 ++ e4 ++ [.save])

/-- `Container.provision` (src/nomad/container.py:76-92) together with its
`must_be_running` guard (19-27).  The guard evaluates `is_running`, which
materialises `_container` — creating the remote object when it is absent —
before deciding. -/
def nomad_provision (homedir : String) (opts : Options)
    (barebone : Option Bool) (cl : Client) : Client × List Effect :=
  let m := materialize (freshRemoteNomad homedir opts) cl
  if ¬ m.1.status_code = CONTAINER_RUNNING then
    ({ containerExists := true, remote := m.1 }, m.2)
  else
    let bb := barebone.getD (¬ aGet m.1.config "user.nomad.provisioned" = some "true")
    let e1 := if bb then [Effect.prepareDebian] else []
    let e2 := opts.provisioning.map Effect.ansibleProvision
    let c2 := { m.1 with config := aSet m.1.config "user.nomad.provisioned" "true" }
    ({ containerExists := true, remote := c2 }, m.2 ++ e1 ++ e2 ++ [.save])

/-- `Container.shell` (src/lxdock/container.py:126-163) with its
`must_be_created_and_running` guard; the interactive body (no `cmd_args`)
re-applies the env overrides and spawns `lxc exec`. -/
def lxdock_shell (opts : Options) (cl : Client) : Client × List Effect :=
  if ¬ cl.containerExists then (cl, [])
  else if ¬ cl.remote.status_code = CONTAINER_RUNNING then (cl, [])
  else
    let se := setup_env opts cl.remote
    ({ cl with remote := se.1 }, se.2 ++ [.shellExec])

/-- `Container.shell` (src/nomad/container.py:94-109) with its
`must_be_running` guard (which materialises `_container`). -/
def nomad_shell (homedir : String) (opts : Options) (cl : Client) :
    Client × List Effect :=
  let m := materialize (freshRemoteNomad homedir opts) cl
  if ¬ m.1.status_code = CONTAINER_RUNNING then
    ({ containerExists := true, remote := m.1 }, m.2)
  else
    ({ containerExists := true, remote := m.1 }, m.2 ++ [.shellExec])

/-! ### halt / destroy (textually identical in the two variants) -/

/-- `Container.halt` (src/lxdock/container.py:71-85 and
src/nomad/container.py:60-74).  `is_stopped` materialises `_container`,
creating the remote object when it does not exist; a non-stopped container
gets its hostname bindings removed and a graceful stop, with one forced stop
as fallback when the graceful stop raises `LXDAPIException`. -/
def halt (env : Env) (fresh : Remote) (opts : Options) (cl : Client)
    (file : List (String × String)) :
    Client × List (String × String) × List Effect :=
  let m := materialize fresh cl
  if m.1.status_code = CONTAINER_STOPPED then
    ({ containerExists := true, remote := m.1 }, file, m.2)
  else
    let u := unsetup_hostnames opts.hostnames file
    let stopEffs :=
      if env.gracefulStopFails then [Effect.stopGraceful 30, Effect.stopForced]
      else [Effect.stopGraceful 30]
    ({ containerExists := true, remote := { m.1 with status_code := CONTAINER_STOPPED } },
     u.1, m.2 ++ u.2 ++ stopEffs)

/-- `Container.destroy` (src/lxdock/container.py:57-69 and
src/nomad/container.py:46-58): `_get_container(create=False)`; absent means
nothing to destroy, otherwise halt then delete. -/
def destroy (env : Env) (fresh : Remote) (opts : Options) (cl : Client)
    (file : List (String × String)) :
    Client × List (String × String) × List Effect :=
  if ¬ cl.containerExists then (cl, file, [])
  else
    let hres := halt env fresh opts cl file
    ({ containerExists := false, remote := hres.1.remote }, hres.2.1,
     hres.2.2 ++ [.delete])

/-! ### up -/

/-- The outcome of an `up` invocation: final daemon view, final host
resolution file, effect trace, and whether `ContainerOperationFailed` was
raised. -/
structure UpOut where
  client : Client
  file : List (String × String)
  trace : List Effect
  failed : Bool
deriving DecidableEq, Repr

/-- `Container.up` (src/lxdock/container.py:165-206).  The leading
`is_running` check materialises `_container` (creating it when absent);
`start` reaches Running when `env.startWorks`, otherwise
`ContainerOperationFailed` is raised; an unresolved IP returns right after
acquisition; otherwise hostnames, users, shares and env overrides are set up
and provisioning runs according to the tri-state mode. -/
def lxdock_up (env : Env) (homedir : String) (opts : Options)
    (provisioning_mode : Option PMode) (cl : Client)
    (file : List (String × String)) : UpOut :=
  let m0 := materialize (freshRemoteLxdock homedir opts) cl
  if m0.1.status_code = CONTAINER_RUNNING then
    ⟨{ containerExists := true, remote := m0.1 }, file, m0.2, false⟩
  else
    let c1 := if env.startWorks then { m0.1 with status_code := CONTAINER_RUNNING } else m0.1
    let e1 := m0.2 ++ [Effect.start]
    if ¬ c1.status_code = CONTAINER_RUNNING then
      ⟨{ containerExists := true, remote := c1 }, file, e1, true⟩
    else
      let ipr := lxdock_setup_ip env.ipOracle
      match ipr.1 with
      | none =>
          ⟨{ containerExists := true, remote := c1 }, file, e1 ++ ipr.2, false⟩
      | some ip =>
          let sh := setup_hostnames opts.hostnames ip file
          let eU := setup_users opts
          let ss := lxdock_setup_shares homedir opts c1
          let se := setup_env opts ss.1
          let is_provisioned := aGet se.1.config "user.lxdock.provisioned" = some "true"
          let m := provisioning_mode.getD PMode.AUTO
          let cl3 : Client := { containerExists := true, remote := se.1 }
          if ¬ m = PMode.DISABLED ∧
              ((¬ is_provisioned ∧ m = PMode.AUTO) ∨ m = PMode.ENABLED) then
            let pr := lxdock_provision env opts cl3
            ⟨pr.1, sh.1, e1 ++ ipr.2 ++ sh.2 ++ eU ++ ss.2 ++ se.2 ++ pr.2, false⟩
          else
            ⟨cl3, sh.1, e1 ++ ipr.2 ++ sh.2 ++ eU ++ ss.2 ++ se.2, false⟩

/-- `Container.up` (src/nomad/container.py:111-146).  The nomad variant
reconciles shares and pre-assigns a previously-leased static IP *before*
starting; after start and IP acquisition it sets up hostnames and provisions
(with `barebone=True`) unless already provisioned. -/
def nomad_up (env : Env) (homedir : String) (opts : Options) (cl : Client)
    (file : List (String × String)) : UpOut :=
  let m0 := materialize (freshRemoteNomad homedir opts) cl
  if m0.1.status_code = CONTAINER_RUNNING then
    ⟨{ containerExists := true, remote := m0.1 }, file, m0.2, false⟩
  else
    let sa :=
      if opts.sharesPresent then nomad_setup_shares homedir opts m0.1 else (m0.1, [])
    let sb :=
      if aGet sa.1.config "user.nomad.static_ip" = some "true" then
        nomad_assign_free_static_ip sa.1
      else (sa.1, [])
    let cC := if env.startWorks then { sb.1 with status_code := CONTAINER_RUNNING } else sb.1
    let eStart := m0.2 ++ sa.2 ++ sb.2 ++ [Effect.start]
    if ¬ cC.status_code = CONTAINER_RUNNING then
      ⟨{ containerExists := true, remote := cC }, file, eStart, true⟩
    else
      let ipr := nomad_setup_ip env.ipOracle cC
      match ipr.1 with
      | none =>
          ⟨{ containerExists := true, remote := ipr.2.1 }, file,
           eStart ++ ipr.2.2, false⟩
      | some ip =>
          let sh := setup_hostnames opts.hostnames ip file
          if ¬ aGet ipr.2.1.config "user.nomad.provisioned" = some "true" then
            let pr := nomad_provision homedir opts (some true)
              { containerExists := true, remote := ipr.2.1 }
            ⟨pr.1, sh.1, eStart ++ ipr.2.2 ++ sh.2 ++ pr.2, false⟩
          else
            ⟨{ containerExists := true, remote := ipr.2.1 }, sh.1,
             eStart ++ ipr.2.2 ++ sh.2, false⟩

/-! ### Observations on traces and device lists -/

/-- The `existing_sources` snapshot taken by the lxdock `_setup_shares`
before removing entries: the host source paths of the installed namespaced
share entries. -/
def lxdockInstalledSources (c : Remote) : List String :=
  (c.devices.filter (fun p => pyStartswith p.1 "lxdockshare")).map
    (fun p => p.2.source)

/-- The same snapshot in the nomad variant. -/
def nomadInstalledSources (c : Remote) : List String :=
  (c.devices.filter (fun p => pyStartswith p.1 "nomadshare")).map
    (fun p => p.2.source)

/-- The host source path an effect grants ACL access to, when it is a
host-side ACL grant. -/
def aclSource : Effect → Option String
  | .giveCurrentUserAccess s => some s
  | .giveMappedUserAccess s _ => some s
  | .setfaclCurrentUser s => some s
  | .setfaclMappedRoot s => some s
  | _ => none

/-- Whether an effect belongs to the provisioning pipeline: a barebones
setup step or a provisioner hook. -/
def isProvisioningEffect : Effect → Bool
  | .provisionerSetup _ => true
  | .provisionerProvision _ => true
  | .addSshPubkeyToRoot _ => true
  | .prepareDebian => true
  | .ansibleProvision _ => true
  | _ => false

/-! ### Concrete fixtures used by the scenario instances below -/

/-- Empty declarative options. -/
def opts0 : Options :=
  { name := "c", privileged := false, lxc_config := [], environment := [],
    hostnames := [], sharesPresent := false, shares := [], users := [],
    provisioning := [] }

/-- A quiet external world: start works, graceful stop works, no IP ever
appears, no SSH key, empty registry. -/
def env0 : Env :=
  { registry := [], sshPubkey := none, startWorks := true,
    gracefulStopFails := false, ipOracle := fun _ => none }

/-- Desired share `A`. -/
def shareA : ShareOpt := { source := "a", dest := "/da", set_host_acl := true }

/-- Desired share `B`. -/
def shareB : ShareOpt := { source := "b", dest := "/db", set_host_acl := true }

/-- Options whose desired share list is `[A]`. -/
def optsA : Options := { opts0 with sharesPresent := true, shares := [shareA] }

/-- Options whose desired share list is `[B]`. -/
def optsB : Options := { opts0 with sharesPresent := true, shares := [shareB] }

/-- Options whose desired share list is `[A, B]`. -/
def optsAB : Options :=
  { opts0 with sharesPresent := true, shares := [shareA, shareB] }

/-- Options with the `shares` key present but the list empty. -/
def optsNoShares : Options := { opts0 with sharesPresent := true, shares := [] }

/-- A bare stopped remote object. -/
def remoteStopped : Remote :=
  { status_code := CONTAINER_STOPPED, config := [], devices := [] }

/-- A bare running remote object. -/
def remoteRunning : Remote :=
  { status_code := CONTAINER_RUNNING, config := [], devices := [] }

/-- The daemon view when the container has not been created. -/
def clAbsent : Client := { containerExists := false, remote := remoteStopped }

/-- The daemon view of an existing stopped container. -/
def clStopped : Client := { containerExists := true, remote := remoteStopped }

/-- The remote object left by a first lxdock share pass with desired
`[A, B]`. -/
def remoteAB : Remote := (lxdock_setup_shares "/h" optsAB remoteRunning).1

/-- A world whose first network-state query already reports an address. -/
def envIp : Env := { env0 with ipOracle := fun _ => some "10.0.3.5" }

/-- The daemon view of a container that reached Running and Provisioned on a
first `up`. -/
def clRunProv : Client :=
  { containerExists := true,
    remote := { status_code := CONTAINER_RUNNING,
                config := [("user.lxdock.provisioned", "true")],
                devices := [] } }

/-- Options declaring one environment-variable override. -/
def optsEnvFoo : Options := { opts0 with environment := [("FOO", "bar")] }

/-- The daemon view of a provisioned container that is currently stopped. -/
def clStopProv : Client :=
  { containerExists := true,
    remote := { status_code := CONTAINER_STOPPED,
                config := [("user.lxdock.provisioned", "true")],
                devices := [] } }

/-- First `up` with desired shares `[A]` against a stopped empty container. -/
def c7up1 : UpOut := lxdock_up envIp "/h" optsA none clStopped []

/-- `halt` after the first `up`. -/
def c7cl2 : Client :=
  (halt envIp (freshRemoteLxdock "/h" optsA) optsA c7up1.client []).1

/-- Second `up`, with the `shares` key present but the list now empty. -/
def c7up2 : UpOut := lxdock_up envIp "/h" optsNoShares none c7cl2 []

/-- `halt` after the second `up`. -/
def c7cl3 : Client :=
  (halt envIp (freshRemoteLxdock "/h" optsNoShares) optsNoShares c7up2.client []).1

/-- Third `up`, with desired shares `[A]` again. -/
def c7up3 : UpOut := lxdock_up envIp "/h" optsA none c7cl3 []

/-! ## Lemmas about the dict embedding -/

theorem aGet_cons (p : String × α) (m : List (String × α)) (k : String) :
    aGet (p :: m) k = if p.1 = k then some p.2 else aGet m k := by
  by_cases h : p.1 = k <;> simp [aGet, List.find?, h]

theorem aGet_append (m₁ m₂ : List (String × α)) (k : String) :
    aGet (m₁ ++ m₂) k = ((aGet m₁ k).orElse (fun _ => aGet m₂ k)) := by
  induction m₁ with
  | nil => simp [aGet]
  | cons p m ih =>
      by_cases h : p.1 = k <;> simp [aGet_cons, h, ih]

theorem aGet_eq_none_iff (m : List (String × α)) (k : String) :
    aGet m k = none ↔ ∀ p ∈ m, ¬ p.1 = k := by
  simp [aGet, List.find?_eq_none]

/-- When the key is absent, assignment is an append. -/
theorem aSet_eq_append (m : List (String × α)) (k : String) (v : α)
    (h : aGet m k = none) : aSet m k v = m ++ [(k, v)] := by
  have hfind : m.find? (fun p => p.1 = k) = none := by
    cases hf : m.find? (fun p => p.1 = k) with
    | none => rfl
    | some p => simp [aGet, hf] at h
  simp [aSet, hfind]

theorem aGet_mapReplace (m : List (String × α)) (k k' : String) (v : α)
    (h : ¬ k = k') :
    aGet (m.map (fun p => if p.1 = k then (k, v) else p)) k' = aGet m k' := by
  induction m with
  | nil => rfl
  | cons p rest ih =>
      by_cases hp : p.1 = k
      · rw [List.map_cons, if_pos hp, aGet_cons, aGet_cons]
        have hpk' : ¬ p.1 = k' := by rw [hp]; exact h
        simp only [hpk', if_neg, if_false, h]
        simpa [h] using ih
      · rw [List.map_cons, if_neg hp, aGet_cons, aGet_cons]
        by_cases hp' : p.1 = k' <;> simp [hp', ih]

/-- Assignment never removes other keys. -/
theorem aGet_aSet_ne (m : List (String × α)) (k k' : String) (v : α)
    (h : ¬ k = k') : aGet (aSet m k v) k' = aGet m k' := by
  by_cases hf : (m.find? (fun p => p.1 = k)).isSome
  · simp only [aSet, hf, if_pos]
    exact aGet_mapReplace m k k' v h
  · simp only [aSet, hf, if_neg, Bool.false_eq_true, not_false_iff]
    rw [aGet_append, aGet_cons]
    simp only [h, if_neg, if_false]
    cases aGet m k' <;> simp [aGet]

/-- Assignment writes the key. -/
theorem aGet_aSet_self (m : List (String × α)) (k : String) (v : α) :
    aGet (aSet m k v) k = some v := by
  by_cases hf : (m.find? (fun p => p.1 = k)).isSome
  · simp only [aSet, hf, if_pos]
    induction m with
    | nil => simp [List.find?] at hf
    | cons p rest ih =>
        by_cases hp : p.1 = k
        · rw [List.map_cons, if_pos hp, aGet_cons]
          simp
        · rw [List.map_cons, if_neg hp, aGet_cons]
          simp only [hp, if_neg, if_false]
          apply ih
          simpa [List.find?, hp] using hf
  · simp only [aSet, hf, if_neg, Bool.false_eq_true, not_false_iff]
    rw [aGet_append]
    have hnone : aGet m k = none := by
      cases hg : m.find? (fun p => p.1 = k) with
      | none => simp [aGet, hg]
      | some p => simp [hg] at hf
    simp [hnone, aGet_cons]

/-! ## Lemmas about decimal rendering -/

theorem decStrAux_ne_nil (fuel n : Nat) (hn : 0 < n) (hf : n ≤ fuel) :
    decStrAux fuel n ≠ [] := by
  cases fuel with
  | zero => omega
  | succ f =>
      cases n with
      | zero => omega
      | succ m => simp [decStrAux]

theorem digitChar_injOn (a b : Nat) (ha : a < 10) (hb : b < 10)
    (h : Nat.digitChar a = Nat.digitChar b) : a = b := by
  interval_cases a <;> interval_cases b <;> simp_all [Nat.digitChar]

theorem decStrAux_inj (fuel₁ fuel₂ n₁ n₂ : Nat) (h₁ : n₁ ≤ fuel₁) (h₂ : n₂ ≤ fuel₂)
    (h : decStrAux fuel₁ n₁ = decStrAux fuel₂ n₂) : n₁ = n₂ := by
  induction fuel₁ generalizing fuel₂ n₁ n₂ with
  | zero =>
      interval_cases n₁
      cases Nat.eq_zero_or_pos n₂ with
      | inl h0 => omega
      | inr hpos =>
          exact absurd h.symm (decStrAux_ne_nil fuel₂ n₂ hpos h₂)
  | succ f ih =>
      cases n₁ with
      | zero =>
          cases Nat.eq_zero_or_pos n₂ with
          | inl h0 => omega
          | inr hpos =>
              exact absurd h.symm (decStrAux_ne_nil fuel₂ n₂ hpos h₂)
      | succ m₁ =>
          cases fuel₂ with
          | zero =>
              have h0 : decStrAux 0 n₂ = [] := rfl
              rw [h0] at h
              exact absurd h (decStrAux_ne_nil (f + 1) (m₁ + 1) (Nat.succ_pos m₁) h₁)
          | succ g =>
              cases n₂ with
              | zero =>
                  exact absurd h (decStrAux_ne_nil (f + 1) (m₁ + 1) (Nat.succ_pos m₁) h₁)
              | succ m₂ =>
                  simp only [decStrAux] at h
                  have hlen : ([Nat.digitChar ((m₁ + 1) % 10)]).length
                      = ([Nat.digitChar ((m₂ + 1) % 10)]).length := by simp
                  obtain ⟨hpre, hlast⟩ := List.append_inj' h hlen
                  have hmod : (m₁ + 1) % 10 = (m₂ + 1) % 10 := by
                    apply digitChar_injOn _ _ (Nat.mod_lt _ (by omega)) (Nat.mod_lt _ (by omega))
                    simpa using hlast
                  have hdiv : (m₁ + 1) / 10 = (m₂ + 1) / 10 := by
                    apply ih g ((m₁ + 1) / 10) ((m₂ + 1) / 10)
                    · omega
                    · omega
                    · exact hpre
                  omega

theorem decStr_ne_zero_str (n : Nat) (hn : n ≠ 0) : decStr n ≠ "0" := by
  simp only [decStr, if_neg hn]
  intro hc
  have hd : decStrAux n n = ['0'] := by
    have := congrArg String.data hc
    simpa using this
  cases n with
  | zero => omega
  | succ k =>
      simp only [decStrAux] at hd
      rcases List.append_eq_cons_iff.mp hd with ⟨h1, h2⟩ | ⟨as, h1, h2⟩
      · have hmod : (k + 1) % 10 = 0 := by
          apply digitChar_injOn _ 0 (Nat.mod_lt _ (by omega)) (by omega)
          have := congrArg (fun l => l.headI) h2
          simpa [Nat.digitChar] using this
        have hdiv : (k + 1) / 10 = 0 := by
          have hlt : k + 1 < 10 * 1 := by
            by_contra hge
            have h10 : 10 ≤ k + 1 := by omega
            have : decStrAux k ((k + 1) / 10) ≠ [] := by
              apply decStrAux_ne_nil
              · exact Nat.div_pos h10 (by omega)
              · have := Nat.div_le_self (k + 1) 10
                omega
            exact this h1
          omega
        omega
      · have := congrArg List.length h2
        simp at this

theorem decStr_inj (m n : Nat) (h : decStr m = decStr n) : m = n := by
  by_cases hm : m = 0 <;> by_cases hn : n = 0
  · omega
  · exfalso
    rw [hm] at h
    simp only [decStr, if_pos rfl] at h
    exact decStr_ne_zero_str n hn h.symm
  · exfalso
    rw [hn] at h
    simp only [decStr, if_pos rfl] at h
    exact decStr_ne_zero_str m hm h
  · simp only [decStr, if_neg hm, if_neg hn] at h
    have : decStrAux m m = decStrAux n n := by
      have := congrArg String.data h
      simpa using this
    exact decStrAux_inj m n m n (le_refl m) (le_refl n) this

/-! ## Lemmas about prefixes and share keys -/

theorem pyStartswith_append (p t : String) : pyStartswith (p ++ t) p = true := by
  simp only [pyStartswith, List.isPrefixOf_iff_prefix, String.data_append]
  exact List.prefix_append _ _

theorem strAppend_cancel_left (s a b : String) (h : s ++ a = s ++ b) : a = b := by
  have hd := congrArg String.data h
  simp only [String.data_append] at hd
  have hab := List.append_cancel_left hd
  cases a with
  | mk da =>
      cases b with
      | mk db =>
          simp only at hab
          exact congrArg String.mk hab

theorem lxdockShareKey_startswith (i : Nat) :
    pyStartswith (lxdockShareKey i) "lxdockshare" = true :=
  pyStartswith_append "lxdockshare" (decStr i)

theorem nomadShareKey_startswith (i : Nat) :
    pyStartswith (nomadShareKey i) "nomadshare" = true :=
  pyStartswith_append "nomadshare" (decStr i)

theorem lxdockShareKey_inj (i j : Nat) (h : lxdockShareKey i = lxdockShareKey j) :
    i = j :=
  decStr_inj i j (strAppend_cancel_left "lxdockshare" _ _ h)

theorem nomadShareKey_inj (i j : Nat) (h : nomadShareKey i = nomadShareKey j) :
    i = j :=
  decStr_inj i j (strAppend_cancel_left "nomadshare" _ _ h)

/-! ## Lemmas about share reconciliation -/

/-- The numbering loop only appends grant effects, one block per share, in
desired order. -/
theorem sharesLoop_effects (homedir : String) (key : Nat → String)
    (grants : ShareOpt → List Effect) (i : Nat) (shares : List ShareOpt)
    (devs : List (String × Device)) :
    (sharesLoop homedir key grants i shares devs).2 = (shares.map grants).flatten := by
  induction shares generalizing i devs with
  | nil => rfl
  | cons s rest ih => simp [sharesLoop, ih]

/-- When every key the loop will use is absent, the loop appends the numbered
entries in desired order. -/
theorem sharesLoop_devices (homedir : String) (key : Nat → String)
    (grants : ShareOpt → List Effect)
    (hinj : ∀ j k, key j = key k → j = k) (shares : List ShareOpt) :
    ∀ (i : Nat) (devs : List (String × Device)),
    (∀ j, i ≤ j → aGet devs (key j) = none) →
    (sharesLoop homedir key grants i shares devs).1
      = devs ++ (List.enumFrom i shares).map
          (fun p => (key p.1, mkShareDev homedir p.2)) := by
  induction shares with
  | nil => intro i devs _; simp [sharesLoop]
  | cons s rest ih =>
      intro i devs hfresh
      have hset : aSet devs (key i) (mkShareDev homedir s)
          = devs ++ [(key i, mkShareDev homedir s)] :=
        aSet_eq_append _ _ _ (hfresh i (le_refl i))
      have hfresh' : ∀ j, i + 1 ≤ j →
          aGet (devs ++ [(key i, mkShareDev homedir s)]) (key j) = none := by
        intro j hj
        rw [aGet_append, hfresh j (by omega), aGet_cons]
        have : ¬ key i = key j := fun hk => by
          have := hinj i j hk
          omega
        simp [this, aGet]
      have hrec := ih (i + 1) (devs ++ [(key i, mkShareDev homedir s)]) hfresh'
      simp only [sharesLoop, hset, hrec, List.enumFrom, List.map_cons]
      simp [List.append_assoc]

/-- The namespaced entries of the device list produced by the loop, over a
base with no namespaced keys, are exactly the numbered desired entries. -/
theorem filter_sharesLoop (homedir : String) (pre : String) (key : Nat → String)
    (grants : ShareOpt → List Effect)
    (hinj : ∀ j k, key j = key k → j = k)
    (hkeypre : ∀ j, pyStartswith (key j) pre = true)
    (shares : List ShareOpt) (base : List (String × Device)) :
    ((sharesLoop homedir key grants 1 shares
        (base.filter (fun p => ¬ pyStartswith p.1 pre))).1).filter
        (fun p => pyStartswith p.1 pre)
      = (List.enumFrom 1 shares).map
          (fun p => (key p.1, mkShareDev homedir p.2)) := by
  have hfresh : ∀ j, 1 ≤ j →
      aGet (base.filter (fun p => ¬ pyStartswith p.1 pre)) (key j) = none := by
    intro j _
    rw [aGet_eq_none_iff]
    intro p hp hpk
    have hpmem : p ∈ base := List.mem_of_mem_filter hp
    have hnp : ¬ pyStartswith p.1 pre = true := by
      have := List.of_mem_filter hp
      simpa using this
    rw [hpk] at hnp
    exact hnp (hkeypre j)
  rw [sharesLoop_devices homedir key grants hinj shares 1 _ hfresh]
  rw [List.filter_append]
  have h1 : (base.filter (fun p => ¬ pyStartswith p.1 pre)).filter
      (fun p => pyStartswith p.1 pre) = [] := by
    rw [List.filter_eq_nil_iff]
    intro p hp
    have := List.of_mem_filter hp
    simpa using this
  have h2 : ((List.enumFrom 1 shares).map
      (fun p => (key p.1, mkShareDev homedir p.2))).filter
      (fun p => pyStartswith p.1 pre)
      = (List.enumFrom 1 shares).map (fun p => (key p.1, mkShareDev homedir p.2)) := by
    rw [List.filter_eq_self]
    intro p hp
    obtain ⟨q, _, rfl⟩ := List.mem_map.mp hp
    simpa using hkeypre q.1
  rw [h1, h2, List.nil_append]

/-- C1 helper, lxdock variant: one `_setup_shares` pass leaves exactly the
desired shares as namespaced device entries, keyed `lxdockshare1..N`. -/
theorem lxdock_setup_shares_devices (homedir : String) (opts : Options)
    (c : Remote) (hpres : opts.sharesPresent = true) :
    ((lxdock_setup_shares homedir opts c).1.devices).filter
        (fun p => pyStartswith p.1 "lxdockshare")
      = (List.enumFrom 1 opts.shares).map
          (fun p => (lxdockShareKey p.1, mkShareDev homedir p.2)) := by
  simp only [lxdock_setup_shares, hpres, Bool.true_eq_false, not_true, if_neg,
    not_false_iff, if_false, ite_false, ite_true]
  exact filter_sharesLoop homedir "lxdockshare" lxdockShareKey _
    lxdockShareKey_inj (fun j => lxdockShareKey_startswith j) opts.shares c.devices

/-- C1 helper, nomad variant. -/
theorem nomad_setup_shares_devices (homedir : String) (opts : Options)
    (c : Remote) :
    ((nomad_setup_shares homedir opts c).1.devices).filter
        (fun p => pyStartswith p.1 "nomadshare")
      = (List.enumFrom 1 opts.shares).map
          (fun p => (nomadShareKey p.1, mkShareDev homedir p.2)) := by
  simp only [nomad_setup_shares]
  exact filter_sharesLoop homedir "nomadshare" nomadShareKey _
    nomadShareKey_inj (fun j => nomadShareKey_startswith j) opts.shares c.devices

/-! ## C1 -/

/-- C1: Share reconciliation is convergent.  After any single
`_setup_shares` pass with desired share list `D`, the installed namespaced
share device entries exactly mirror `D` — one entry per desired share, keyed
`1..N` in desired-list order — with no stale namespaced entries surviving,
regardless of what namespaced entries existed before the pass; in both the
lxdock and the nomad variant. -/
theorem C1_setup_shares_convergent (homedir : String) (opts : Options)
    (c : Remote) (hpres : opts.sharesPresent = true) :
    ((lxdock_setup_shares homedir opts c).1.devices).filter
        (fun p => pyStartswith p.1 "lxdockshare")
      = (List.enumFrom 1 opts.shares).map
          (fun p => (lxdockShareKey p.1, mkShareDev homedir p.2)) ∧
    ((nomad_setup_shares homedir opts c).1.devices).filter
        (fun p => pyStartswith p.1 "nomadshare")
      = (List.enumFrom 1 opts.shares).map
          (fun p => (nomadShareKey p.1, mkShareDev homedir p.2)) :=
  ⟨lxdock_setup_shares_devices homedir opts c hpres,
   nomad_setup_shares_devices homedir opts c⟩

/-- Witness for C1: reconciling with `[A, B]` and then with `[B]` leaves
exactly one namespaced device entry, the one for `B`. -/
theorem C1_setup_shares_convergent_witness :
    optsB.sharesPresent = true ∧
    (((lxdock_setup_shares "/h" optsB remoteAB).1.devices).filter
        (fun p => pyStartswith p.1 "lxdockshare")
      = (List.enumFrom 1 optsB.shares).map
          (fun p => (lxdockShareKey p.1, mkShareDev "/h" p.2)) ∧
     ((nomad_setup_shares "/h" optsB remoteAB).1.devices).filter
        (fun p => pyStartswith p.1 "nomadshare")
      = (List.enumFrom 1 optsB.shares).map
          (fun p => (nomadShareKey p.1, mkShareDev "/h" p.2))) ∧
    ((lxdock_setup_shares "/h" optsB remoteAB).1.devices).filter
        (fun p => pyStartswith p.1 "lxdockshare")
      = [("lxdockshare1", mkShareDev "/h" shareB)] :=
  ⟨rfl, C1_setup_shares_convergent "/h" optsB remoteAB rfl, by decide⟩

/-! ## C4 -/

/-- C4 (code bug): the identity resolver can return a 64-character name.
`lxd_name` truncates the `'{project}-{name}'` stem to `63 - len(project_id)`
characters and then appends `'-{project_id}'`, which is one character more
than the budget: with a 55-character project name, container name `"b"` and
a 6-character directory identifier, the result has length 64, violating the
claimed — and code-commented — 63-character hostname bound. -/
theorem C4_lxd_name_length_64 :
    (lxd_name (String.mk (List.replicate 55 'a')) "b" "123456").length = 64 ∧
    ¬ (lxd_name (String.mk (List.replicate 55 'a')) "b" "123456").length ≤ 63 := by
  constructor
  · decide
  · decide

/-! ## Lemmas about ACL grants -/

theorem lxdock_setup_shares_effects (homedir : String) (opts : Options)
    (c : Remote) (hpres : opts.sharesPresent = true) :
    (lxdock_setup_shares homedir opts c).2
      = (opts.shares.map (lxdockShareGrants homedir opts (is_privileged c)
          (lxdockInstalledSources c))).flatten ++ [Effect.save] := by
  simp only [lxdock_setup_shares, hpres, lxdockInstalledSources, not_true,
    if_false, ite_false, Bool.true_eq_false, not_false_iff, ite_true, if_neg]
  rw [sharesLoop_effects]

theorem nomad_setup_shares_effects (homedir : String) (opts : Options)
    (c : Remote) :
    (nomad_setup_shares homedir opts c).2
      = (opts.shares.map (nomadShareGrants homedir (is_privileged c)
          (nomadInstalledSources c))).flatten ++ [Effect.save] := by
  simp only [nomad_setup_shares, nomadInstalledSources]
  rw [sharesLoop_effects]

theorem lxdockShareGrants_aclSource (homedir : String) (opts : Options)
    (privileged : Bool) (ex : List String) (s : ShareOpt) (src : String) :
    (∃ e ∈ lxdockShareGrants homedir opts privileged ex s, aclSource e = some src)
      ↔ (s.set_host_acl = true ∧ osPathJoin homedir s.source ∉ ex ∧
         osPathJoin homedir s.source = src) := by
  unfold lxdockShareGrants
  by_cases hc : s.set_host_acl ∧ osPathJoin homedir s.source ∉ ex
  · rw [if_pos hc]
    constructor
    · rintro ⟨e, he, hsrc⟩
      refine ⟨hc.1, hc.2, ?_⟩
      have hall : aclSource e = some (osPathJoin homedir s.source) := by
        rcases List.mem_append.mp he with h1 | h2
        · simp only [List.mem_singleton] at h1
          subst h1; rfl
        · by_cases hp : privileged
          · simp [hp] at h2
          · simp only [hp, Bool.false_eq_true, not_false_iff, if_pos, ite_true] at h2
            rcases List.mem_cons.mp h2 with rfl | h3
            · rfl
            · obtain ⟨u, _, rfl⟩ := List.mem_map.mp h3
              rfl
      rw [hall] at hsrc
      simpa using hsrc
    · rintro ⟨h1, h2, heq⟩
      refine ⟨.giveCurrentUserAccess (osPathJoin homedir s.source),
        List.mem_append.mpr (Or.inl (by simp)), ?_⟩
      simp [aclSource, heq]
  · rw [if_neg hc]
    constructor
    · rintro ⟨e, he, -⟩
      exact absurd he (List.not_mem_nil e)
    · rintro ⟨h1, h2, -⟩
      exact absurd ⟨h1, h2⟩ hc

theorem nomadShareGrants_aclSource (homedir : String)
    (privileged : Bool) (ex : List String) (s : ShareOpt) (src : String) :
    (∃ e ∈ nomadShareGrants homedir privileged ex s, aclSource e = some src)
      ↔ (osPathJoin homedir s.source ∉ ex ∧ osPathJoin homedir s.source = src) := by
  unfold nomadShareGrants
  by_cases hc : osPathJoin homedir s.source ∉ ex
  · rw [if_pos hc]
    constructor
    · rintro ⟨e, he, hsrc⟩
      refine ⟨hc, ?_⟩
      have hall : aclSource e = some (osPathJoin homedir s.source) := by
        rcases List.mem_append.mp he with h1 | h2
        · simp only [List.mem_singleton] at h1
          subst h1; rfl
        · by_cases hp : privileged
          · simp [hp] at h2
          · simp only [hp, Bool.false_eq_true, not_false_iff, if_pos, ite_true] at h2
            simp only [List.mem_singleton] at h2
            subst h2; rfl
      rw [hall] at hsrc
      simpa using hsrc
    · rintro ⟨h2, heq⟩
      refine ⟨.setfaclCurrentUser (osPathJoin homedir s.source),
        List.mem_append.mpr (Or.inl (by simp)), ?_⟩
      simp [aclSource, heq]
  · rw [if_neg hc]
    constructor
    · rintro ⟨e, he, -⟩
      exact absurd he (List.not_mem_nil e)
    · rintro ⟨h2, -⟩
      exact absurd h2 hc

theorem lxdock_pass_grant_iff (homedir : String) (opts : Options) (c : Remote)
    (src : String) (hpres : opts.sharesPresent = true) :
    (∃ e ∈ (lxdock_setup_shares homedir opts c).2, aclSource e = some src)
      ↔ ∃ s ∈ opts.shares, osPathJoin homedir s.source = src ∧
          s.set_host_acl = true ∧ src ∉ lxdockInstalledSources c := by
  rw [lxdock_setup_shares_effects homedir opts c hpres]
  constructor
  · rintro ⟨e, he, hsrc⟩
    rcases List.mem_append.mp he with hf | hs
    · obtain ⟨blk, hblk, heblk⟩ := List.mem_flatten.mp hf
      obtain ⟨s, hsmem, rfl⟩ := List.mem_map.mp hblk
      have hch := (lxdockShareGrants_aclSource homedir opts (is_privileged c)
        (lxdockInstalledSources c) s src).mp ⟨e, heblk, hsrc⟩
      refine ⟨s, hsmem, hch.2.2, hch.1, ?_⟩
      rw [← hch.2.2]
      exact hch.2.1
    · simp only [List.mem_singleton] at hs
      subst hs
      simp [aclSource] at hsrc
  · rintro ⟨s, hsmem, heq, hacl, hnin⟩
    obtain ⟨e, he, hsrc⟩ := (lxdockShareGrants_aclSource homedir opts
      (is_privileged c) (lxdockInstalledSources c) s src).mpr
      ⟨hacl, by rw [heq]; exact hnin, heq⟩
    exact ⟨e, List.mem_append.mpr (Or.inl (List.mem_flatten.mpr
      ⟨_, List.mem_map.mpr ⟨s, hsmem, rfl⟩, he⟩)), hsrc⟩

theorem nomad_pass_grant_iff (homedir : String) (opts : Options) (c : Remote)
    (src : String) :
    (∃ e ∈ (nomad_setup_shares homedir opts c).2, aclSource e = some src)
      ↔ ∃ s ∈ opts.shares, osPathJoin homedir s.source = src ∧
          src ∉ nomadInstalledSources c := by
  rw [nomad_setup_shares_effects homedir opts c]
  constructor
  · rintro ⟨e, he, hsrc⟩
    rcases List.mem_append.mp he with hf | hs
    · obtain ⟨blk, hblk, heblk⟩ := List.mem_flatten.mp hf
      obtain ⟨s, hsmem, rfl⟩ := List.mem_map.mp hblk
      have hch := (nomadShareGrants_aclSource homedir (is_privileged c)
        (nomadInstalledSources c) s src).mp ⟨e, heblk, hsrc⟩
      refine ⟨s, hsmem, hch.2, ?_⟩
      rw [← hch.2]
      exact hch.1
    · simp only [List.mem_singleton] at hs
      subst hs
      simp [aclSource] at hsrc
  · rintro ⟨s, hsmem, heq, hnin⟩
    obtain ⟨e, he, hsrc⟩ := (nomadShareGrants_aclSource homedir
      (is_privileged c) (nomadInstalledSources c) s src).mpr
      ⟨by rw [heq]; exact hnin, heq⟩
    exact ⟨e, List.mem_append.mpr (Or.inl (List.mem_flatten.mpr
      ⟨_, List.mem_map.mpr ⟨s, hsmem, rfl⟩, he⟩)), hsrc⟩

theorem lxdockInstalledSources_after (homedir : String) (opts : Options)
    (c : Remote) (hpres : opts.sharesPresent = true) :
    lxdockInstalledSources (lxdock_setup_shares homedir opts c).1
      = opts.shares.map (fun s => osPathJoin homedir s.source) := by
  unfold lxdockInstalledSources
  rw [lxdock_setup_shares_devices homedir opts c hpres, List.map_map]
  have h1 : ((fun (p : String × Device) => p.2.source) ∘
      (fun (p : Nat × ShareOpt) => (lxdockShareKey p.1, mkShareDev homedir p.2)))
      = ((fun s : ShareOpt => osPathJoin homedir s.source) ∘ Prod.snd) := rfl
  rw [h1, ← List.map_map, List.enumFrom_map_snd]

theorem nomadInstalledSources_after (homedir : String) (opts : Options)
    (c : Remote) :
    nomadInstalledSources (nomad_setup_shares homedir opts c).1
      = opts.shares.map (fun s => osPathJoin homedir s.source) := by
  unfold nomadInstalledSources
  rw [nomad_setup_shares_devices homedir opts c, List.map_map]
  have h1 : ((fun (p : String × Device) => p.2.source) ∘
      (fun (p : Nat × ShareOpt) => (nomadShareKey p.1, mkShareDev homedir p.2)))
      = ((fun s : ShareOpt => osPathJoin homedir s.source) ∘ Prod.snd) := rfl
  rw [h1, ← List.map_map, List.enumFrom_map_snd]

theorem lxdock_pass_aclfree (homedir : String) (opts : Options) (c : Remote)
    (h : ∀ s ∈ opts.shares, osPathJoin homedir s.source ∈ lxdockInstalledSources c) :
    ∀ e ∈ (lxdock_setup_shares homedir opts c).2, aclSource e = none := by
  intro e he
  by_cases hpres : opts.sharesPresent = true
  · rw [lxdock_setup_shares_effects homedir opts c hpres] at he
    rcases List.mem_append.mp he with hf | hs
    · obtain ⟨blk, hblk, heblk⟩ := List.mem_flatten.mp hf
      obtain ⟨s, hsmem, rfl⟩ := List.mem_map.mp hblk
      unfold lxdockShareGrants at heblk
      rw [if_neg] at heblk
      · exact absurd heblk (List.not_mem_nil e)
      · rintro ⟨-, hnin⟩
        exact hnin (h s hsmem)
    · simp only [List.mem_singleton] at hs
      subst hs; rfl
  · simp only [lxdock_setup_shares, hpres, Bool.not_eq_true] at he
    simp at he

theorem nomad_pass_aclfree (homedir : String) (opts : Options) (c : Remote)
    (h : ∀ s ∈ opts.shares, osPathJoin homedir s.source ∈ nomadInstalledSources c) :
    ∀ e ∈ (nomad_setup_shares homedir opts c).2, aclSource e = none := by
  intro e he
  rw [nomad_setup_shares_effects homedir opts c] at he
  rcases List.mem_append.mp he with hf | hs
  · obtain ⟨blk, hblk, heblk⟩ := List.mem_flatten.mp hf
    obtain ⟨s, hsmem, rfl⟩ := List.mem_map.mp hblk
    unfold nomadShareGrants at heblk
    rw [if_neg] at heblk
    · exact absurd heblk (List.not_mem_nil e)
    · intro hnin
      exact hnin (h s hsmem)
  · simp only [List.mem_singleton] at hs
    subst hs; rfl

/-! ## C7 -/

/-- Counterexample to C7 as stated: three `up` invocations against the same
container — desired shares `[A]`, then `[]`, then `[A]` again, with a `halt`
between them — apply the host-side ACL grant for the source path of `A`
twice, because the snapshot only remembers *currently installed* sources and
the middle pass uninstalled `A`.  So "at most once per unique host source
path across repeated `up` invocations" fails. -/
theorem C7_counterexample :
    ((c7up1.trace ++ c7up2.trace ++ c7up3.trace).filter
        (fun e => e = Effect.giveCurrentUserAccess (osPathJoin "/h" "a"))).length = 2 ∧
    ¬ ((c7up1.trace ++ c7up2.trace ++ c7up3.trace).filter
        (fun e => e = Effect.giveCurrentUserAccess (osPathJoin "/h" "a"))).length ≤ 1 := by
  constructor
  · decide
  · decide

/-- C7, amended: in each `_setup_shares` pass, an ACL grant is emitted for a
host source path exactly when some desired share resolves to it, carries
`set_host_acl` (lxdock variant; nomad has no such switch), and the path is
not in the pre-removal snapshot of installed namespaced sources;
consequently a pass repeated with the same desired list emits no ACL effect
at all.  A source uninstalled by an intermediate pass and re-added later is
granted again (see the counterexample), so "at most once per unique host
source path" holds only while the source stays installed. -/
theorem C7_acl_gating (homedir : String) (opts : Options) (c : Remote)
    (src : String) (hpres : opts.sharesPresent = true) :
    ((∃ e ∈ (lxdock_setup_shares homedir opts c).2, aclSource e = some src)
      ↔ ∃ s ∈ opts.shares, osPathJoin homedir s.source = src ∧
          s.set_host_acl = true ∧ src ∉ lxdockInstalledSources c) ∧
    ((∃ e ∈ (nomad_setup_shares homedir opts c).2, aclSource e = some src)
      ↔ ∃ s ∈ opts.shares, osPathJoin homedir s.source = src ∧
          src ∉ nomadInstalledSources c) ∧
    (∀ e ∈ (lxdock_setup_shares homedir opts
        (lxdock_setup_shares homedir opts c).1).2, aclSource e = none) ∧
    (∀ e ∈ (nomad_setup_shares homedir opts
        (nomad_setup_shares homedir opts c).1).2, aclSource e = none) := by
  refine ⟨lxdock_pass_grant_iff homedir opts c src hpres,
          nomad_pass_grant_iff homedir opts c src, ?_, ?_⟩
  · apply lxdock_pass_aclfree
    rw [lxdockInstalledSources_after homedir opts c hpres]
    intro s hs
    exact List.mem_map.mpr ⟨s, hs, rfl⟩
  · apply nomad_pass_aclfree
    rw [nomadInstalledSources_after homedir opts c]
    intro s hs
    exact List.mem_map.mpr ⟨s, hs, rfl⟩

/-- Witness for C7's amended statement at a concrete input. -/
theorem C7_acl_gating_witness :
    optsA.sharesPresent = true ∧
    (((∃ e ∈ (lxdock_setup_shares "/h" optsA remoteRunning).2,
          aclSource e = some (osPathJoin "/h" "a"))
      ↔ ∃ s ∈ optsA.shares, osPathJoin "/h" s.source = osPathJoin "/h" "a" ∧
          s.set_host_acl = true ∧
          osPathJoin "/h" "a" ∉ lxdockInstalledSources remoteRunning) ∧
     ((∃ e ∈ (nomad_setup_shares "/h" optsA remoteRunning).2,
          aclSource e = some (osPathJoin "/h" "a"))
      ↔ ∃ s ∈ optsA.shares, osPathJoin "/h" s.source = osPathJoin "/h" "a" ∧
          osPathJoin "/h" "a" ∉ nomadInstalledSources remoteRunning) ∧
     (∀ e ∈ (lxdock_setup_shares "/h" optsA
         (lxdock_setup_shares "/h" optsA remoteRunning).1).2, aclSource e = none) ∧
     (∀ e ∈ (nomad_setup_shares "/h" optsA
         (nomad_setup_shares "/h" optsA remoteRunning).1).2, aclSource e = none)) :=
  ⟨rfl, C7_acl_gating "/h" optsA remoteRunning (osPathJoin "/h" "a") rfl⟩

/-! ## Lemmas about the hostname reconciler -/

theorem aDel_cons (p : String × α) (m : List (String × α)) (k : String) :
    aDel (p :: m) k = if p.1 = k then aDel m k else p :: aDel m k := by
  simp only [aDel, List.filter_cons]
  by_cases hp : p.1 = k <;> simp [hp]

theorem aGet_aDel_ne (m : List (String × α)) (k k' : String) (h : ¬ k' = k) :
    aGet (aDel m k') k = aGet m k := by
  induction m with
  | nil => rfl
  | cons p rest ih =>
      rw [aDel_cons]
      by_cases hp : p.1 = k'
      · rw [if_pos hp, ih, aGet_cons]
        have hpk : ¬ p.1 = k := by rw [hp]; exact h
        rw [if_neg hpk]
      · rw [if_neg hp, aGet_cons, aGet_cons, ih]

theorem aGet_aDel_self (m : List (String × α)) (k : String) :
    aGet (aDel m k) k = none := by
  rw [aGet_eq_none_iff]
  intro p hp
  have := List.of_mem_filter hp
  simpa using this

theorem filter_key_aDel (b : List (String × α)) (h h' : String) (hne : ¬ h' = h) :
    (aDel b h').filter (fun p => p.1 = h) = b.filter (fun p => p.1 = h) := by
  induction b with
  | nil => rfl
  | cons p rest ih =>
      rw [aDel_cons]
      by_cases hp : p.1 = h'
      · rw [if_pos hp, ih, List.filter_cons]
        have hpk : ¬ p.1 = h := by rw [hp]; exact hne
        simp [hpk]
      · rw [if_neg hp, List.filter_cons, List.filter_cons, ih]

theorem filter_key_aDel_self (b : List (String × α)) (h : String) :
    (aDel b h).filter (fun p => p.1 = h) = [] := by
  rw [List.filter_eq_nil_iff]
  intro q hq
  have := List.of_mem_filter hq
  simp at this ⊢
  exact this

theorem filter_key_len_one (m : List (String × α)) (k : String) (v : α)
    (hnd : (m.map Prod.fst).Nodup) (h : aGet m k = some v) :
    (m.filter (fun p => p.1 = k)).length = 1 := by
  induction m with
  | nil => simp [aGet] at h
  | cons p rest ih =>
      rw [List.map_cons, List.nodup_cons] at hnd
      rw [aGet_cons] at h
      by_cases hp : p.1 = k
      · rw [List.filter_cons, if_pos (by simpa using hp)]
        have hnil : rest.filter (fun q => q.1 = k) = [] := by
          rw [List.filter_eq_nil_iff]
          intro q hq hqk
          apply hnd.1
          simp only [decide_eq_true_eq] at hqk
          exact List.mem_map.mpr ⟨q, hq, by rw [hqk, hp]⟩
        simp [hnil]
      · rw [List.filter_cons, if_neg (by simpa using hp)]
        rw [if_neg hp] at h
        exact ih hnd.2 h

theorem ensure_present_keysNodup (e : EtcHosts) (h ip : String)
    (hnd : (e.bindings.map Prod.fst).Nodup) :
    ((e.ensure_binding_present h ip).bindings.map Prod.fst).Nodup := by
  unfold EtcHosts.ensure_binding_present
  split
  · exact hnd
  · simp only [List.map_append]
    apply List.Nodup.append
    · exact ((List.filter_sublist _).map Prod.fst).nodup hnd
    · simp
    · intro a ha hb
      simp only [List.map_cons, List.map_nil, List.mem_singleton] at hb
      subst hb
      obtain ⟨p, hp, rfl⟩ := List.mem_map.mp ha
      have := List.of_mem_filter hp
      simp at this

theorem ensure_present_preserves (e : EtcHosts) (h' h ip : String)
    (hP : aGet e.bindings h = some ip ∧
      (e.bindings.filter (fun p => p.1 = h)).length = 1) :
    aGet (e.ensure_binding_present h' ip).bindings h = some ip ∧
    ((e.ensure_binding_present h' ip).bindings.filter
      (fun p => p.1 = h)).length = 1 := by
  unfold EtcHosts.ensure_binding_present
  split
  · exact hP
  · next hcond =>
      by_cases hh : h' = h
      · exact absurd (hh ▸ hP.1) hcond
      · constructor
        · rw [aGet_append, aGet_aDel_ne _ _ _ hh, hP.1]
          rfl
        · rw [List.filter_append, filter_key_aDel _ _ _ hh]
          have : ([(h', ip)].filter (fun p => (p : String × String).1 = h)) = [] := by
            simp [hh]
          rw [this, List.append_nil]
          exact hP.2

theorem ensure_present_establishes (e : EtcHosts) (h ip : String)
    (hnd : (e.bindings.map Prod.fst).Nodup) :
    aGet (e.ensure_binding_present h ip).bindings h = some ip ∧
    ((e.ensure_binding_present h ip).bindings.filter
      (fun p => p.1 = h)).length = 1 := by
  unfold EtcHosts.ensure_binding_present
  split
  · next hcond => exact ⟨hcond, filter_key_len_one _ _ _ hnd hcond⟩
  · constructor
    · rw [aGet_append, aGet_aDel_self]
      simp [aGet_cons]
    · rw [List.filter_append, filter_key_aDel_self]
      simp

theorem ensure_absent_preserves_none (e : EtcHosts) (h' h : String)
    (hP : aGet e.bindings h = none) :
    aGet (e.ensure_binding_absent h').bindings h = none := by
  unfold EtcHosts.ensure_binding_absent
  split
  · by_cases hh : h' = h
    · rw [hh]
      exact aGet_aDel_self _ _
    · rw [aGet_aDel_ne _ _ _ hh]
      exact hP
  · exact hP

theorem ensure_absent_establishes (e : EtcHosts) (h : String) :
    aGet (e.ensure_binding_absent h).bindings h = none := by
  unfold EtcHosts.ensure_binding_absent
  split
  · exact aGet_aDel_self _ _
  · next hcond =>
      cases hopt : aGet e.bindings h with
      | none => rfl
      | some v => rw [hopt] at hcond; simp at hcond

theorem ensure_present_cases (e : EtcHosts) (h ip : String) :
    e.ensure_binding_present h ip = e ∨
    (e.ensure_binding_present h ip).changed = true := by
  unfold EtcHosts.ensure_binding_present
  split
  · exact Or.inl rfl
  · exact Or.inr rfl

theorem ensure_present_mono (e : EtcHosts) (h ip : String)
    (hc : e.changed = true) : (e.ensure_binding_present h ip).changed = true := by
  unfold EtcHosts.ensure_binding_present
  split
  · exact hc
  · rfl

theorem ensure_absent_cases (e : EtcHosts) (h : String) :
    e.ensure_binding_absent h = e ∨ (e.ensure_binding_absent h).changed = true := by
  unfold EtcHosts.ensure_binding_absent
  split
  · exact Or.inr rfl
  · exact Or.inl rfl

theorem ensure_absent_mono (e : EtcHosts) (h : String)
    (hc : e.changed = true) : (e.ensure_binding_absent h).changed = true := by
  unfold EtcHosts.ensure_binding_absent
  split
  · rfl
  · exact hc

theorem foldl_etc_changed_mono (step : EtcHosts → String → EtcHosts)
    (hmono : ∀ e h, e.changed = true → (step e h).changed = true)
    (hs : List String) :
    ∀ e : EtcHosts, e.changed = true → (hs.foldl step e).changed = true := by
  induction hs with
  | nil => intro e hc; exact hc
  | cons h0 tl ih =>
      intro e hc
      exact ih (step e h0) (hmono e h0 hc)

theorem foldl_etc_not_changed (step : EtcHosts → String → EtcHosts)
    (hstep : ∀ e h, step e h = e ∨ (step e h).changed = true)
    (hmono : ∀ e h, e.changed = true → (step e h).changed = true)
    (hs : List String) :
    ∀ e : EtcHosts, (hs.foldl step e).changed = false → hs.foldl step e = e := by
  induction hs with
  | nil => intro e _; rfl
  | cons h0 tl ih =>
      intro e hch
      rw [List.foldl_cons] at hch ⊢
      rcases hstep e h0 with heq | htrue
      · rw [heq] at hch ⊢
        exact ih e hch
      · have := foldl_etc_changed_mono step hmono tl (step e h0) htrue
        rw [this] at hch
        cases hch

theorem foldPresent_not_changed (ip : String) (hs : List String) (e : EtcHosts)
    (hch : (foldPresent ip hs e).changed = false) : foldPresent ip hs e = e :=
  foldl_etc_not_changed _ (fun e' h => ensure_present_cases e' h ip)
    (fun e' h => ensure_present_mono e' h ip) hs e hch

theorem foldAbsent_not_changed (hs : List String) (e : EtcHosts)
    (hch : (foldAbsent hs e).changed = false) : foldAbsent hs e = e :=
  foldl_etc_not_changed _ (fun e' h => ensure_absent_cases e' h)
    (fun e' h => ensure_absent_mono e' h) hs e hch

/-- Through the whole present-fold, an established binding survives. -/
theorem foldPresent_preserves (ip : String) (hs : List String) :
    ∀ (e : EtcHosts) (h : String),
    (aGet e.bindings h = some ip ∧
      (e.bindings.filter (fun p => p.1 = h)).length = 1) →
    aGet (foldPresent ip hs e).bindings h = some ip ∧
    ((foldPresent ip hs e).bindings.filter (fun p => p.1 = h)).length = 1 := by
  induction hs with
  | nil => intro e h hP; exact hP
  | cons h0 tl ih =>
      intro e h hP
      exact ih _ h (ensure_present_preserves e h0 h ip hP)

/-- The present-fold keeps the keys duplicate-free and gives every processed
hostname exactly one binding, at the given ip. -/
theorem foldPresent_spec (ip : String) (hs : List String) :
    ∀ (e : EtcHosts), (e.bindings.map Prod.fst).Nodup →
    ((foldPresent ip hs e).bindings.map Prod.fst).Nodup ∧
    ∀ h ∈ hs,
      aGet (foldPresent ip hs e).bindings h = some ip ∧
      ((foldPresent ip hs e).bindings.filter (fun p => p.1 = h)).length = 1 := by
  induction hs with
  | nil =>
      intro e hnd
      exact ⟨hnd, by intro h hh; cases hh⟩
  | cons h0 tl ih =>
      intro e hnd
      have hnd1 := ensure_present_keysNodup e h0 ip hnd
      obtain ⟨hndf, hmem⟩ := ih (e.ensure_binding_present h0 ip) hnd1
      refine ⟨hndf, ?_⟩
      intro h hh
      rcases List.mem_cons.mp hh with rfl | htl
      · exact foldPresent_preserves ip tl _ h (ensure_present_establishes e h ip hnd)
      · exact hmem h htl

theorem foldPresent_nochange (ip : String) (hs : List String) :
    ∀ e : EtcHosts, (∀ h ∈ hs, aGet e.bindings h = some ip) →
    foldPresent ip hs e = e := by
  induction hs with
  | nil => intro e _; rfl
  | cons h0 tl ih =>
      intro e hall
      have h1 : e.ensure_binding_present h0 ip = e := by
        unfold EtcHosts.ensure_binding_present
        rw [if_pos (hall h0 (by simp))]
      show foldPresent ip tl (e.ensure_binding_present h0 ip) = e
      rw [h1]
      exact ih e (fun h hh => hall h (List.mem_cons_of_mem h0 hh))

theorem foldAbsent_preserves_none (hs : List String) :
    ∀ (e : EtcHosts) (h : String), aGet e.bindings h = none →
    aGet (foldAbsent hs e).bindings h = none := by
  induction hs with
  | nil => intro e h hP; exact hP
  | cons h0 tl ih =>
      intro e h hP
      exact ih _ h (ensure_absent_preserves_none e h0 h hP)

theorem foldAbsent_spec (hs : List String) :
    ∀ (e : EtcHosts) (h : String), h ∈ hs →
    aGet (foldAbsent hs e).bindings h = none := by
  induction hs with
  | nil => intro e h hh; cases hh
  | cons h0 tl ih =>
      intro e h hh
      rcases List.mem_cons.mp hh with rfl | htl
      · exact foldAbsent_preserves_none tl _ h (ensure_absent_establishes e h)
      · exact ih _ h htl

theorem foldAbsent_nochange (hs : List String) :
    ∀ e : EtcHosts, (∀ h ∈ hs, aGet e.bindings h = none) →
    foldAbsent hs e = e := by
  induction hs with
  | nil => intro e _; rfl
  | cons h0 tl ih =>
      intro e hall
      have h1 : e.ensure_binding_absent h0 = e := by
        unfold EtcHosts.ensure_binding_absent
        rw [if_neg]
        rw [hall h0 (by simp)]
        simp
      show foldAbsent tl (e.ensure_binding_absent h0) = e
      rw [h1]
      exact ih e (fun h hh => hall h (List.mem_cons_of_mem h0 hh))

/-! ## C8 -/

/-- C8 (EtcHosts modelled from the spec): after a hostname-setup pass with
IP `x`, every declared hostname has exactly one binding in the resolution
file, pointing at `x` (for a duplicate-free file); the removal pass run by
`halt` drops the binding of every declared hostname; a subsequent setup
pass with a different IP `y` re-adds each binding pointing at `y` (the first
conjunct again); and in both directions the file is persisted only when some
binding actually changed — a pass whose bindings are already in the desired
state returns the file untouched with no save. -/
theorem C8_hostname_lifecycle (hostnames : List String) (ip : String)
    (file : List (String × String)) (h : String) :
    ((file.map Prod.fst).Nodup → h ∈ hostnames →
      aGet (setup_hostnames hostnames ip file).1 h = some ip ∧
      ((setup_hostnames hostnames ip file).1.filter
        (fun p => p.1 = h)).length = 1) ∧
    (h ∈ hostnames → aGet (unsetup_hostnames hostnames file).1 h = none) ∧
    ((∀ h' ∈ hostnames, aGet file h' = some ip) →
      setup_hostnames hostnames ip file = (file, [])) ∧
    ((∀ h' ∈ hostnames, aGet file h' = none) →
      unsetup_hostnames hostnames file = (file, [])) := by
  refine ⟨?_, ?_, ?_, ?_⟩
  · intro hnd hmem
    have hne : ¬ hostnames = [] := by rintro rfl; cases hmem
    obtain ⟨-, hspec⟩ := foldPresent_spec ip hostnames ⟨file, false⟩ (by simpa using hnd)
    cases hch : (foldPresent ip hostnames ⟨file, false⟩).changed with
    | true =>
        simp only [setup_hostnames, if_neg hne, hch, if_pos, ite_true]
        exact hspec h hmem
    | false =>
        have hfix := foldPresent_not_changed ip hostnames ⟨file, false⟩ hch
        simp only [setup_hostnames, if_neg hne, hch, Bool.false_eq_true,
          ite_false, if_neg, not_false_iff]
        have hsp := hspec h hmem
        rw [hfix] at hsp
        exact hsp
  · intro hmem
    have hne : ¬ hostnames = [] := by rintro rfl; cases hmem
    have hspec := foldAbsent_spec hostnames ⟨file, false⟩ h hmem
    cases hch : (foldAbsent hostnames ⟨file, false⟩).changed with
    | true =>
        simp only [unsetup_hostnames, if_neg hne, hch, if_pos, ite_true]
        exact hspec
    | false =>
        have hfix := foldAbsent_not_changed hostnames ⟨file, false⟩ hch
        simp only [unsetup_hostnames, if_neg hne, hch, Bool.false_eq_true,
          ite_false, if_neg, not_false_iff]
        rw [hfix] at hspec
        exact hspec
  · intro hall
    by_cases hne : hostnames = []
    · simp [setup_hostnames, hne]
    · have hfix := foldPresent_nochange ip hostnames ⟨file, false⟩ (by simpa using hall)
      simp only [setup_hostnames, if_neg hne, hfix]
      rfl
  · intro hall
    by_cases hne : hostnames = []
    · simp [unsetup_hostnames, hne]
    · have hfix := foldAbsent_nochange hostnames ⟨file, false⟩ (by simpa using hall)
      simp only [unsetup_hostnames, if_neg hne, hfix]
      rfl

/-- Witness for C8: the `dev.local` scenario — `up` with `10.0.3.5` installs
the single binding, `halt` removes it, `up` with `10.0.3.9` re-adds it at
the new address. -/
theorem C8_hostname_lifecycle_witness :
    (([] : List (String × String)).map Prod.fst).Nodup ∧
    "dev.local" ∈ ["dev.local"] ∧
    (aGet (setup_hostnames ["dev.local"] "10.0.3.5" []).1 "dev.local"
        = some "10.0.3.5" ∧
     ((setup_hostnames ["dev.local"] "10.0.3.5" []).1.filter
        (fun p => p.1 = "dev.local")).length = 1) ∧
    aGet (unsetup_hostnames ["dev.local"]
        (setup_hostnames ["dev.local"] "10.0.3.5" []).1).1 "dev.local" = none ∧
    aGet (setup_hostnames ["dev.local"] "10.0.3.9"
        (unsetup_hostnames ["dev.local"]
          (setup_hostnames ["dev.local"] "10.0.3.5" []).1).1).1 "dev.local"
      = some "10.0.3.9" := by
  refine ⟨by decide, by decide, ?_, ?_, ?_⟩
  · exact (C8_hostname_lifecycle ["dev.local"] "10.0.3.5" [] "dev.local").1
      (by decide) (by decide)
  · exact (C8_hostname_lifecycle ["dev.local"] "10.0.3.5"
      (setup_hostnames ["dev.local"] "10.0.3.5" []).1 "dev.local").2.1 (by decide)
  · exact ((C8_hostname_lifecycle ["dev.local"] "10.0.3.9"
      (unsetup_hostnames ["dev.local"]
        (setup_hostnames ["dev.local"] "10.0.3.5" []).1).1 "dev.local").1
      (by decide) (by decide)).1

/-! ## Lemmas about IP acquisition -/

theorem wait_for_ip_first_hit (oracle : Nat → Option String) (a : String) :
    ∀ (k sec q0 : Nat), k < sec → (∀ i, i < k → oracle (q0 + i) = none) →
    oracle (q0 + k) = some a →
    wait_for_ip oracle q0 sec = (some a, List.replicate (k + 1) Effect.sleep) := by
  intro k
  induction k with
  | zero =>
      intro sec q0 hk hnone hhit
      cases sec with
      | zero => omega
      | succ s =>
          simp only [Nat.add_zero] at hhit
          simp [wait_for_ip, hhit, List.replicate]
  | succ m ih =>
      intro sec q0 hk hnone hhit
      cases sec with
      | zero => omega
      | succ s =>
          have h0 : oracle q0 = none := by
            have := hnone 0 (by omega)
            simpa using this
          have hrec := ih s (q0 + 1) (by omega)
            (fun i hi => by
              have := hnone (i + 1) (by omega)
              rw [← this]
              congr 1
              omega)
            (by rw [← hhit]; congr 1; omega)
          simp [wait_for_ip, h0, hrec, List.replicate]

theorem wait_for_ip_none (oracle : Nat → Option String) :
    ∀ (sec q0 : Nat), (∀ i, i < sec → oracle (q0 + i) = none) →
    wait_for_ip oracle q0 sec = (none, List.replicate sec Effect.sleep) := by
  intro sec
  induction sec with
  | zero => intro q0 _; rfl
  | succ s ih =>
      intro q0 hnone
      have h0 : oracle q0 = none := by
        have := hnone 0 (by omega)
        simpa using this
      have hrec := ih (q0 + 1) (fun i hi => by
        have := hnone (i + 1) (by omega)
        rw [← this]
        congr 1
        omega)
      simp [wait_for_ip, h0, hrec, List.replicate]

/-! ## C3 -/

/-- C3: IP acquisition queries once and returns immediately on a hit (both
variants); otherwise it polls once per second for up to 10 seconds and
returns the address found by the first successful poll — in particular an
address that only appears on the 10th poll is still returned; and in the
nomad variant, when the whole bounded window stays empty, exactly one
stop / allocate-free-address / push-static-config / restart cycle is
performed, followed by exactly one more bounded poll, before the unresolved
result is returned. -/
theorem C3_ip_acquisition (oracle : Nat → Option String) (a : String)
    (k : Nat) (c : Remote) :
    (oracle 0 = some a →
      lxdock_setup_ip oracle = (some a, []) ∧
      nomad_setup_ip oracle c = (some a, c, [])) ∧
    (1 ≤ k → k ≤ 10 → (∀ i, i < k → oracle i = none) → oracle k = some a →
      lxdock_setup_ip oracle = (some a, List.replicate k Effect.sleep)) ∧
    ((∀ i, i ≤ 20 → oracle i = none) →
      nomad_setup_ip oracle c
        = (none,
           { c with status_code := CONTAINER_RUNNING,
                    config := aSet c.config "user.nomad.static_ip" "true" },
           List.replicate 10 Effect.sleep
             ++ [Effect.stopWait, Effect.findFreeIp, Effect.setStaticIp,
                 Effect.save, Effect.start]
             ++ List.replicate 10 Effect.sleep)) := by
  refine ⟨?_, ?_, ?_⟩
  · intro h0
    constructor
    · simp [lxdock_setup_ip, h0]
    · simp [nomad_setup_ip, h0]
  · intro hk1 hk10 hnone hhit
    have h0 : oracle 0 = none := hnone 0 (by omega)
    cases k with
    | zero => omega
    | succ m =>
        have hw := wait_for_ip_first_hit oracle a m 10 1 (by omega)
          (fun i hi => by
            have := hnone (i + 1) (by omega)
            rw [← this]
            congr 1
            omega)
          (by rw [← hhit]; congr 1; omega)
        simp [lxdock_setup_ip, h0, hw]
  · intro hnone
    have h0 : oracle 0 = none := hnone 0 (by omega)
    have hw1 := wait_for_ip_none oracle 10 1 (fun i hi => hnone (1 + i) (by omega))
    have hw2 := wait_for_ip_none oracle 10 11 (fun i hi => hnone (11 + i) (by omega))
    simp only [nomad_setup_ip, h0, hw1, hw2, nomad_assign_free_static_ip]
    simp [List.replicate]

/-- Witness for C3: an address first appearing on the 10th poll is returned
after exactly 10 sleeps; a handle that never reports an address makes the
nomad variant run exactly one stop/allocate/push/restart cycle and one more
bounded poll; a handle with an immediate address suspends nowhere. -/
theorem C3_ip_acquisition_witness :
    lxdock_setup_ip (fun i => if i = 10 then some "10.0.3.77" else none)
      = (some "10.0.3.77", List.replicate 10 Effect.sleep) ∧
    nomad_setup_ip (fun _ => none) remoteRunning
      = (none,
         { remoteRunning with
             status_code := CONTAINER_RUNNING,
             config := aSet remoteRunning.config "user.nomad.static_ip" "true" },
         List.replicate 10 Effect.sleep
           ++ [Effect.stopWait, Effect.findFreeIp, Effect.setStaticIp,
               Effect.save, Effect.start]
           ++ List.replicate 10 Effect.sleep) ∧
    lxdock_setup_ip (fun _ => some "10.0.3.5") = (some "10.0.3.5", []) := by
  refine ⟨?_, ?_, ?_⟩
  · exact (C3_ip_acquisition (fun i => if i = 10 then some "10.0.3.77" else none)
      "10.0.3.77" 10 remoteRunning).2.1 (by decide) (by decide)
      (by decide) (by decide)
  · exact (C3_ip_acquisition (fun _ => none) "x" 0 remoteRunning).2.2
      (fun i _ => rfl)
  · exact ((C3_ip_acquisition (fun _ => some "10.0.3.5") "10.0.3.5" 0
      remoteRunning).1 rfl).1

/-! ## C9 -/

theorem unsetup_hostnames_trace (hs : List String)
    (file : List (String × String)) :
    (unsetup_hostnames hs file).2 = [] ∨
    (unsetup_hostnames hs file).2 = [Effect.etcSave] := by
  unfold unsetup_hostnames
  by_cases hne : hs = []
  · simp [hne]
  · simp only [if_neg hne]
    cases hch : (foldAbsent hs ⟨file, false⟩).changed
    · simp
    · simp

/-- C9: `halt` on a non-stopped existing container first removes the
hostname bindings (at most one resolution-file write), then attempts exactly
one graceful stop with the fixed 30-second timeout, and issues exactly one
forced stop if and only if the graceful stop raised a daemon error. -/
theorem C9_halt_graceful_then_forced (env : Env) (fresh : Remote)
    (opts : Options) (cl : Client) (file : List (String × String))
    (hex : cl.containerExists = true)
    (hst : ¬ cl.remote.status_code = CONTAINER_STOPPED) :
    ∃ eh,
      (halt env fresh opts cl file).2.2
        = eh ++ (if env.gracefulStopFails then
            [Effect.stopGraceful 30, Effect.stopForced]
          else [Effect.stopGraceful 30]) ∧
      (eh = [] ∨ eh = [Effect.etcSave]) ∧
      (halt env fresh opts cl file).2.2.count (Effect.stopGraceful 30) = 1 ∧
      (halt env fresh opts cl file).2.2.count Effect.stopForced
        = (if env.gracefulStopFails then 1 else 0) := by
  refine ⟨(unsetup_hostnames opts.hostnames file).2, ?_, ?_, ?_, ?_⟩ <;>
    rcases unsetup_hostnames_trace opts.hostnames file with h | h <;>
      cases hgf : env.gracefulStopFails <;>
        simp [halt, materialize, hex, hst, h, hgf, List.count_append,
          List.count_cons]

/-- Witness for C9 at a concrete input (existing running container, empty
hostname list, graceful stop succeeding). -/
theorem C9_halt_graceful_then_forced_witness :
    (⟨true, remoteRunning⟩ : Client).containerExists = true ∧
    ¬ (⟨true, remoteRunning⟩ : Client).remote.status_code = CONTAINER_STOPPED ∧
    ∃ eh,
      (halt env0 (freshRemoteLxdock "/h" opts0) opts0 ⟨true, remoteRunning⟩ []).2.2
        = eh ++ (if env0.gracefulStopFails then
            [Effect.stopGraceful 30, Effect.stopForced]
          else [Effect.stopGraceful 30]) ∧
      (eh = [] ∨ eh = [Effect.etcSave]) ∧
      (halt env0 (freshRemoteLxdock "/h" opts0) opts0
        ⟨true, remoteRunning⟩ []).2.2.count (Effect.stopGraceful 30) = 1 ∧
      (halt env0 (freshRemoteLxdock "/h" opts0) opts0
        ⟨true, remoteRunning⟩ []).2.2.count Effect.stopForced
        = (if env0.gracefulStopFails then 1 else 0) :=
  ⟨rfl, by decide,
   C9_halt_graceful_then_forced env0 (freshRemoteLxdock "/h" opts0) opts0
     ⟨true, remoteRunning⟩ [] rfl (by decide)⟩

/-! ## C5 -/

/-- C5 (code bug): `destroy` on an Absent container is indeed a pure no-op
(empty trace), but `halt` on an Absent container issues a `create` daemon
call — the `is_stopped` check materialises `_container` through
`_get_container(create=True)` — before concluding the fresh container is
already stopped. -/
theorem C5_absent_halt_creates :
    (halt env0 (freshRemoteLxdock "/h" opts0) opts0 clAbsent []).2.2
      = [Effect.create] ∧
    (destroy env0 (freshRemoteLxdock "/h" opts0) opts0 clAbsent []).2.2 = [] := by
  decide

/-! ## C6 -/

/-- C6 (code bug in the nomad variant): the lxdock guard
(`must_be_created_and_running`) checks `exists` first and is effect-free on
an Absent or Stopped container, but the nomad guard (`must_be_running`)
evaluates `is_running` through the lazily-creating `_container` property,
so `provision`/`shell` on an Absent container issue a `create` daemon call.
On an existing Stopped container both variants are effect-free (and in
particular run no guest command). -/
theorem C6_guard_effects :
    (nomad_provision "/h" opts0 none clAbsent).2 = [Effect.create] ∧
    (nomad_shell "/h" opts0 clAbsent).2 = [Effect.create] ∧
    (lxdock_provision env0 opts0 clAbsent).2 = [] ∧
    (lxdock_shell opts0 clAbsent).2 = [] ∧
    (nomad_provision "/h" opts0 none clStopped).2 = [] ∧
    (nomad_shell "/h" opts0 clStopped).2 = [] ∧
    (lxdock_provision env0 opts0 clStopped).2 = [] ∧
    (lxdock_shell opts0 clStopped).2 = [] := by
  decide

/-! ## Lemmas about environment overrides and provisioning-free traces -/

theorem envkey_ne_provkey (k : String) :
    ¬ ("environment." ++ k = "user.lxdock.provisioned") := by
  intro h
  have h0 : ("environment." ++ k).data.head? = some 'e' := by
    rw [String.data_append]
    rfl
  rw [h] at h0
  exact absurd h0 (by decide)

/-- The environment-override fold leaves every other config key unchanged. -/
theorem env_fold_other (envlist : List (String × String))
    (cfg : List (String × String)) (key : String)
    (h : ∀ p ∈ envlist, ¬ ("environment." ++ p.1 = key)) :
    aGet (envlist.foldl
      (fun cfg' kv => aSet cfg' ("environment." ++ kv.1) kv.2) cfg) key
      = aGet cfg key := by
  induction envlist generalizing cfg with
  | nil => rfl
  | cons p rest ih =>
      rw [List.foldl_cons]
      rw [ih _ (fun q hq => h q (List.mem_cons_of_mem p hq))]
      exact aGet_aSet_ne _ _ _ _ (h p (List.mem_cons_self p rest))

/-- The environment-override fold writes every declared pair (for a
duplicate-free override list). -/
theorem env_fold_mem (envlist : List (String × String)) :
    ∀ (cfg : List (String × String)) (k v : String),
    (envlist.map Prod.fst).Nodup → (k, v) ∈ envlist →
    aGet (envlist.foldl
      (fun cfg' kv => aSet cfg' ("environment." ++ kv.1) kv.2) cfg)
      ("environment." ++ k) = some v := by
  induction envlist with
  | nil =>
      intro cfg k v _ hm
      cases hm
  | cons p rest ih =>
      intro cfg k v hnd hm
      rw [List.map_cons, List.nodup_cons] at hnd
      rw [List.foldl_cons]
      rcases List.mem_cons.mp hm with heq | hrest
      · have hp1 : p.1 = k := by rw [← heq]
        have hp2 : p.2 = v := by rw [← heq]
        rw [env_fold_other rest _ _ ?hother]
        · rw [hp1, hp2]
          exact aGet_aSet_self _ _ _
        case hother =>
          intro q hq hcontra
          have hq1 : q.1 = k := strAppend_cancel_left "environment." _ _ hcontra
          apply hnd.1
          exact List.mem_map.mpr ⟨q, hq, by rw [hq1, hp1]⟩
      · exact ih _ k v hnd.2 hrest

theorem setup_env_prov (opts : Options) (c : Remote) :
    aGet (setup_env opts c).1.config "user.lxdock.provisioned"
      = aGet c.config "user.lxdock.provisioned" := by
  unfold setup_env
  by_cases he : opts.environment = []
  · simp [he]
  · simp only [if_neg he]
    exact env_fold_other _ _ _ (fun p _ => envkey_ne_provkey p.1)

theorem setup_env_mem (opts : Options) (c : Remote) (k v : String)
    (hnd : (opts.environment.map Prod.fst).Nodup)
    (hm : (k, v) ∈ opts.environment) :
    aGet (setup_env opts c).1.config ("environment." ++ k) = some v := by
  unfold setup_env
  have he : ¬ opts.environment = [] := by
    intro h0
    rw [h0] at hm
    cases hm
  simp only [if_neg he]
  exact env_fold_mem _ _ k v hnd hm

theorem setup_env_trace (opts : Options) (c : Remote) :
    (setup_env opts c).2 = [] ∨ (setup_env opts c).2 = [Effect.save] := by
  unfold setup_env
  by_cases he : opts.environment = [] <;> simp [he]

theorem setup_hostnames_trace (hs : List String) (ip : String)
    (file : List (String × String)) :
    (setup_hostnames hs ip file).2 = [] ∨
    (setup_hostnames hs ip file).2 = [Effect.etcSave] := by
  unfold setup_hostnames
  by_cases hne : hs = []
  · simp [hne]
  · simp only [if_neg hne]
    cases hch : (foldPresent ip hs ⟨file, false⟩).changed
    · simp
    · simp

theorem lxdock_setup_shares_config (homedir : String) (opts : Options)
    (c : Remote) :
    (lxdock_setup_shares homedir opts c).1.config = c.config := by
  unfold lxdock_setup_shares
  by_cases hpres : opts.sharesPresent <;> simp [hpres]

theorem lxdockShareGrants_notprov (homedir : String) (opts : Options)
    (privileged : Bool) (ex : List String) (s : ShareOpt) :
    ∀ e ∈ lxdockShareGrants homedir opts privileged ex s,
      isProvisioningEffect e = false := by
  intro e he
  unfold lxdockShareGrants at he
  by_cases hc : s.set_host_acl ∧ osPathJoin homedir s.source ∉ ex
  · rw [if_pos hc] at he
    rcases List.mem_append.mp he with h1 | h2
    · simp only [List.mem_singleton] at h1
      subst h1; rfl
    · by_cases hp : privileged
      · simp [hp] at h2
      · simp only [hp, Bool.false_eq_true, not_false_iff, if_pos, ite_true] at h2
        rcases List.mem_cons.mp h2 with rfl | h3
        · rfl
        · obtain ⟨u, _, rfl⟩ := List.mem_map.mp h3
          rfl
  · rw [if_neg hc] at he
    exact absurd he (List.not_mem_nil e)

theorem lxdock_setup_shares_notprov (homedir : String) (opts : Options)
    (c : Remote) :
    ∀ e ∈ (lxdock_setup_shares homedir opts c).2,
      isProvisioningEffect e = false := by
  intro e he
  by_cases hpres : opts.sharesPresent = true
  · rw [lxdock_setup_shares_effects homedir opts c hpres] at he
    rcases List.mem_append.mp he with hf | hs
    · obtain ⟨blk, hblk, heblk⟩ := List.mem_flatten.mp hf
      obtain ⟨s, _, rfl⟩ := List.mem_map.mp hblk
      exact lxdockShareGrants_notprov _ _ _ _ _ e heblk
    · simp only [List.mem_singleton] at hs
      subst hs; rfl
  · simp only [lxdock_setup_shares, hpres, Bool.not_eq_true] at he
    simp at he

theorem setup_users_notprov (opts : Options) :
    ∀ e ∈ setup_users opts, isProvisioningEffect e = false := by
  intro e he
  obtain ⟨u, _, rfl⟩ := List.mem_map.mp he
  rfl

/-- Shape of an `up` against a stopped, already provisioned container whose
address resolves immediately and whose start succeeds, in `auto`
provisioning mode: env overrides are re-applied and the provisioning
pipeline is skipped. -/
theorem lxdock_up_stopped_provisioned (env : Env) (homedir : String)
    (opts : Options) (cr : Remote) (file : List (String × String)) (ip : String)
    (hst : cr.status_code = CONTAINER_STOPPED)
    (hsw : env.startWorks = true)
    (hip : env.ipOracle 0 = some ip)
    (hprov : aGet cr.config "user.lxdock.provisioned" = some "true") :
    lxdock_up env homedir opts none ⟨true, cr⟩ file
      = ⟨⟨true, (setup_env opts (lxdock_setup_shares homedir opts
            { cr with status_code := CONTAINER_RUNNING }).1).1⟩,
         (setup_hostnames opts.hostnames ip file).1,
         Effect.start :: ((setup_hostnames opts.hostnames ip file).2
           ++ setup_users opts
           ++ (lxdock_setup_shares homedir opts
                { cr with status_code := CONTAINER_RUNNING }).2
           ++ (setup_env opts (lxdock_setup_shares homedir opts
                { cr with status_code := CONTAINER_RUNNING }).1).2),
         false⟩ := by
  have hipr : lxdock_setup_ip env.ipOracle = (some ip, []) := by
    simp [lxdock_setup_ip, hip]
  have hprov2 : aGet (setup_env opts (lxdock_setup_shares homedir opts
      { cr with status_code := CONTAINER_RUNNING }).1).1.config
      "user.lxdock.provisioned" = some "true" := by
    rw [setup_env_prov, lxdock_setup_shares_config]
    exact hprov
  have hcond : ¬ cr.status_code = CONTAINER_RUNNING := by
    rw [hst]; decide
  simp [lxdock_up, materialize, hcond, hsw, hipr, hprov2]

/-- C2, amended: a second `up` issued while the container is still Running
is a complete no-op — it neither re-runs the provisioning pipeline nor
re-applies the environment overrides; when the container was stopped in
between (and start succeeds, the address resolves, and the mode is the
default `auto`), the second `up` re-applies every declared environment
override but runs no provisioning-pipeline step, because the persisted
`provisioned` flag gates it. -/
theorem C2_second_up (env : Env) (homedir : String) (opts : Options)
    (mode : Option PMode) (cl : Client) (file : List (String × String))
    (ip : String) :
    (cl.containerExists = true → cl.remote.status_code = CONTAINER_RUNNING →
      lxdock_up env homedir opts mode cl file = ⟨cl, file, [], false⟩) ∧
    (cl.containerExists = true → cl.remote.status_code = CONTAINER_STOPPED →
     aGet cl.remote.config "user.lxdock.provisioned" = some "true" →
     env.startWorks = true → env.ipOracle 0 = some ip → mode = none →
     (∀ e ∈ (lxdock_up env homedir opts mode cl file).trace,
        isProvisioningEffect e = false) ∧
     (∀ k v, (opts.environment.map Prod.fst).Nodup →
        (k, v) ∈ opts.environment →
        aGet (lxdock_up env homedir opts mode cl file).client.remote.config
          ("environment." ++ k) = some v)) := by
  obtain ⟨ce, cr⟩ := cl
  constructor
  · intro hex hrun
    simp only at hex hrun
    subst hex
    simp [lxdock_up, materialize, hrun]
  · intro hex hst hprov hsw hip hmode
    simp only at hex hst hprov
    subst hex
    subst hmode
    rw [lxdock_up_stopped_provisioned env homedir opts cr file ip hst hsw hip hprov]
    constructor
    · intro e he
      simp only at he
      rcases List.mem_cons.mp he with rfl | he2
      · rfl
      · rcases List.mem_append.mp he2 with he3 | hse
        · rcases List.mem_append.mp he3 with he4 | hss
          · rcases List.mem_append.mp he4 with hsh | hu
            · rcases setup_hostnames_trace opts.hostnames ip file with ht | ht <;>
                rw [ht] at hsh
              · exact absurd hsh (List.not_mem_nil e)
              · simp only [List.mem_singleton] at hsh
                subst hsh; rfl
            · exact setup_users_notprov opts e hu
          · exact lxdock_setup_shares_notprov homedir opts _ e hss
        · rcases setup_env_trace opts (lxdock_setup_shares homedir opts
            { cr with status_code := CONTAINER_RUNNING }).1 with ht | ht <;>
            rw [ht] at hse
          · exact absurd hse (List.not_mem_nil e)
          · simp only [List.mem_singleton] at hse
            subst hse; rfl
    · intro k v hnd hm
      simp only
      exact setup_env_mem opts _ k v hnd hm

/-- Counterexample to C2 as stated: a second `up` against a container that is
still Running (and Provisioned) returns immediately — the trace is empty and
the declared environment override is *not* written to the configuration. -/
theorem C2_counterexample :
    (lxdock_up env0 "/h" optsEnvFoo none clRunProv []).trace = [] ∧
    aGet (lxdock_up env0 "/h" optsEnvFoo none clRunProv []).client.remote.config
      "environment.FOO" = none := by
  decide

/-- Witness for C2's amended statement: the no-op against the running
container, and the env-reapplying provisioning-free run against the stopped
one. -/
theorem C2_second_up_witness :
    (lxdock_up envIp "/h" optsEnvFoo none clRunProv []
      = ⟨clRunProv, [], [], false⟩) ∧
    ((∀ e ∈ (lxdock_up envIp "/h" optsEnvFoo none clStopProv []).trace,
        isProvisioningEffect e = false) ∧
     (∀ k v, (optsEnvFoo.environment.map Prod.fst).Nodup →
        (k, v) ∈ optsEnvFoo.environment →
        aGet (lxdock_up envIp "/h" optsEnvFoo none
          clStopProv []).client.remote.config ("environment." ++ k) = some v)) :=
  ⟨(C2_second_up envIp "/h" optsEnvFoo none clRunProv [] "10.0.3.5").1 rfl rfl,
   (C2_second_up envIp "/h" optsEnvFoo none clStopProv [] "10.0.3.5").2
     rfl rfl (by decide) rfl rfl rfl⟩

/-! ## C10 -/

/-- Counterexample to C10 as stated: in the nomad variant, `up` against a
stopped container with a declared share and a handle that never reports an
address still performs share reconciliation in that run — the reconciler
runs *before* start, so the namespaced device is installed and the host
`setfacl` is issued even though the IP stays unresolved (the claim says "no
share reconciliation ... is performed in that run"). -/
theorem C10_counterexample :
    (nomad_up env0 "/h" optsA clStopped []).failed = false ∧
    (nomad_up env0 "/h" optsA clStopped []).client.remote.devices
      = [("nomadshare1", mkShareDev "/h" shareA)] ∧
    Effect.setfaclCurrentUser (osPathJoin "/h" "a")
      ∈ (nomad_up env0 "/h" optsA clStopped []).trace := by
  decide

/-- C10, amended: when IP acquisition returns no address, `up` returns
normally (no exception) and skips every remaining post-start step.  In the
lxdock variant the whole run reduces to the start call and the bounded poll:
no hostname binding, no guest-user creation, no share reconciliation and no
environment-override application happens.  In the nomad variant (shown here
with no `shares` key and no prior static lease; shares would have been
reconciled *before* start — see the counterexample) the run reduces to the
start call, the bounded polls and the one static-IP fallback cycle: hostname
setup and provisioning are skipped. -/
theorem C10_unresolved_ip_skips (env : Env) (homedir : String)
    (opts : Options) (mode : Option PMode) (cl : Client)
    (file : List (String × String)) :
    (cl.containerExists = true → ¬ cl.remote.status_code = CONTAINER_RUNNING →
     env.startWorks = true → (∀ i, i ≤ 10 → env.ipOracle i = none) →
     lxdock_up env homedir opts mode cl file
       = ⟨⟨true, { cl.remote with status_code := CONTAINER_RUNNING }⟩, file,
          Effect.start :: List.replicate 10 Effect.sleep, false⟩) ∧
    (cl.containerExists = true → ¬ cl.remote.status_code = CONTAINER_RUNNING →
     env.startWorks = true → (∀ i, i ≤ 20 → env.ipOracle i = none) →
     opts.sharesPresent = false →
     ¬ aGet cl.remote.config "user.nomad.static_ip" = some "true" →
     nomad_up env homedir opts cl file
       = ⟨⟨true, { cl.remote with
             status_code := CONTAINER_RUNNING,
             config := aSet cl.remote.config "user.nomad.static_ip" "true" }⟩,
          file,
          Effect.start :: (List.replicate 10 Effect.sleep
            ++ [Effect.stopWait, Effect.findFreeIp, Effect.setStaticIp,
                Effect.save, Effect.start]
            ++ List.replicate 10 Effect.sleep),
          false⟩) := by
  obtain ⟨ce, cr⟩ := cl
  constructor
  · intro hex hcond hsw hnone
    simp only at hex hcond
    subst hex
    have h0 : env.ipOracle 0 = none := hnone 0 (by omega)
    have hw := wait_for_ip_none env.ipOracle 10 1
      (fun i hi => hnone (1 + i) (by omega))
    have hipr : lxdock_setup_ip env.ipOracle
        = (none, List.replicate 10 Effect.sleep) := by
      simp [lxdock_setup_ip, h0, hw]
    simp [lxdock_up, materialize, hcond, hsw, hipr]
  · intro hex hcond hsw hnone hshares hstatic
    simp only at hex hcond hstatic
    subst hex
    have h0 : env.ipOracle 0 = none := hnone 0 (by omega)
    have hw1 := wait_for_ip_none env.ipOracle 10 1
      (fun i hi => hnone (1 + i) (by omega))
    have hw2 := wait_for_ip_none env.ipOracle 10 11
      (fun i hi => hnone (11 + i) (by omega))
    have hipr : nomad_setup_ip env.ipOracle
        { cr with status_code := CONTAINER_RUNNING }
        = (none,
           { cr with status_code := CONTAINER_RUNNING,
                     config := aSet cr.config "user.nomad.static_ip" "true" },
           List.replicate 10 Effect.sleep
             ++ [Effect.stopWait, Effect.findFreeIp, Effect.setStaticIp,
                 Effect.save, Effect.start]
             ++ List.replicate 10 Effect.sleep) := by
      simp only [nomad_setup_ip, h0, hw1, hw2, nomad_assign_free_static_ip]
      simp [List.replicate]
    simp [nomad_up, materialize, hcond, hsw, hshares, hstatic, hipr]

/-- Witness for C10's amended statement at a concrete input. -/
theorem C10_unresolved_ip_skips_witness :
    (lxdock_up env0 "/h" opts0 none clStopped []
      = ⟨⟨true, { clStopped.remote with status_code := CONTAINER_RUNNING }⟩, [],
         Effect.start :: List.replicate 10 Effect.sleep, false⟩) ∧
    (nomad_up env0 "/h" opts0 clStopped []
      = ⟨⟨true, { clStopped.remote with
            status_code := CONTAINER_RUNNING,
            config := aSet clStopped.remote.config "user.nomad.static_ip" "true" }⟩,
         [],
         Effect.start :: (List.replicate 10 Effect.sleep
           ++ [Effect.stopWait, Effect.findFreeIp, Effect.setStaticIp,
               Effect.save, Effect.start]
           ++ List.replicate 10 Effect.sleep),
         false⟩) :=
  ⟨(C10_unresolved_ip_skips env0 "/h" opts0 none clStopped []).1
     rfl (by decide) rfl (fun i _ => rfl),
   (C10_unresolved_ip_skips env0 "/h" opts0 none clStopped []).2
     rfl (by decide) rfl (fun i _ => rfl) rfl (by decide)⟩

end LXD
